import Mathlib

namespace Pygff

/-! # Shallow embedding of pygff (src/pygff/core.py)

The content of an open file handle is modelled as the list of lines that
Python's file iteration yields: each line keeps its trailing newline, and an
empty file is the empty list.  Byte offsets are cumulative sums of line
lengths (the files are ASCII, so characters and bytes coincide).  Fallible
Python code (raised exceptions) is modelled with `Option`/`Except`. -/

deriving instance DecidableEq for Except

abbrev Line := String

/-- Split a character list at every separator chosen by `p` (Python
`str.split(sep)`: `n` separators give `n + 1` chunks, empties kept). -/
def splitCharsBy (p : Char → Bool) (acc : List Char) : List Char → List (List Char)
  | [] => [acc.reverse]
  | c :: cs => if p c then acc.reverse :: splitCharsBy p [] cs else splitCharsBy p (c :: acc) cs

/-- Python `str.strip()` (strip leading/trailing whitespace). -/
def pyStrip (s : String) : String :=
  ⟨((s.data.dropWhile Char.isWhitespace).reverse.dropWhile Char.isWhitespace).reverse⟩

/-- Decimal digit accumulator for `pyInt?`. -/
def digitsToNat (acc : Nat) : List Char → Option Nat
  | [] => some acc
  | c :: cs => if c.isDigit then digitsToNat (acc * 10 + (c.toNat - 48)) cs else none

/-- Python `int(s)` on a decimal literal (optional sign, surrounding
whitespace); `none` models the `ValueError` raised on a non-numeric
string. -/
def pyInt? (s : String) : Option Int :=
  match (pyStrip s).data with
  | [] => none
  | '-' :: cs => if cs = [] then none else (digitsToNat 0 cs).map (fun n => -(n : Int))
  | '+' :: cs => if cs = [] then none else (digitsToNat 0 cs).map (fun n => (n : Int))
  | cs => (digitsToNat 0 cs).map (fun n => (n : Int))

/-- Python `str.split()` with no argument: split on whitespace runs,
dropping empty tokens. -/
def pySplitWs (s : String) : List String :=
  ((splitCharsBy (fun c => c.isWhitespace) [] s.data).map String.mk).filter (fun t => t ≠ "")

/-- `line.startswith('#')`. -/
def startsHash (l : Line) : Bool :=
  match l.data with
  | c :: _ => c = '#'
  | [] => false

/-- Python-style lexicographic string comparison (`a < b` on code points). -/
def charListLt : List Char → List Char → Bool
  | [], [] => false
  | [], _ :: _ => true
  | _ :: _, [] => false
  | a :: as, b :: bs => if a < b then true else if b < a then false else charListLt as bs

/-- `str.__lt__`, used by the fetch loop's `entry.seqid < seqid`. -/
def pyStrLt (a b : String) : Bool := charListLt a.data b.data

/-- `line.strip().split('\t')`, the field split used by every pass. -/
def splitTabs (l : Line) : List String :=
  (splitCharsBy (fun c => c = '\t') [] (pyStrip l).data).map String.mk

/-- Lookup in an insertion-ordered association list (Python `dict`/
`OrderedDict` access). -/
def alookup {κ α : Type} [DecidableEq κ] : List (κ × α) → κ → Option α
  | [], _ => none
  | kv :: rest, k => if kv.1 = k then some kv.2 else alookup rest k

/-- `dict.setdefault k v`: keep the dict unchanged if the key is present,
else append the new binding at the end (insertion order). -/
def odSetdefault {κ α : Type} [DecidableEq κ] (l : List (κ × α)) (k : κ) (v : α) :
    List (κ × α) :=
  if (alookup l k).isSome then l else l ++ [(k, v)]

/-- In-place update of the value stored under a key (`d[k] = f d[k]`). -/
def odModify {κ α : Type} [DecidableEq κ] (l : List (κ × α)) (k : κ) (f : α → α) :
    List (κ × α) :=
  l.map (fun kv => if kv.1 = k then (kv.1, f kv.2) else kv)

/-- The values of an ordered dict, in insertion order (`dict.values()`). -/
def odValues {κ α : Type} (l : List (κ × α)) : List α := l.map (·.2)

/-- `_is_zipped` (core.py:39-42): unpack the first three bytes and compare to
the gzip magic `(31, 139, 8)`.  `none` models the `struct.error` raised when
fewer than three bytes are available. -/
def isZipped (firstBytes : List Nat) : Option Bool :=
  if firstBytes.length < 3 then none
  else some (decide (firstBytes.take 3 = [31, 139, 8]))

/-- `_is_version_3` (core.py:30-36): read the first line, split on
whitespace and convert token 1 with `int`.  `none` models the `IndexError`
(missing token) or `ValueError` (non-integer token) that escapes the
function; `some b` is the boolean result `version == 3`. -/
def isVersion3 (lines : List Line) : Option Bool :=
  match lines with
  | [] => none
  | l :: _ =>
    match (pySplitWs (pyStrip l))[1]? with
    | none => none
    | some tok => (pyInt? tok).map (fun v => v == 3)

/-- `_parse_attrs` succeeds iff every `;`-separated chunk of the attribute
column splits on `=` into exactly two parts (`tag, values = attr.split('=')`
raises `ValueError` otherwise). -/
def attrsOk (a : String) : Bool :=
  (splitCharsBy (fun c => c = ';') [] a.data).all
    (fun chunk => (splitCharsBy (fun c => c = '=') [] chunk).length == 2)

/-- `GffEntry` (core.py:114-235): the fields of one record that the core
reads.  `_features` holds all tab fields but the last; the typed accessors
used by the fetch loop are `seqid = f[0]`, `source = f[1]`, `type = f[2]`,
`start = int(f[3])`, `end = int(f[4])`. -/
structure GffEntry where
  seqid : String
  source : String
  type : String
  start : Int
  end_ : Int
deriving DecidableEq

/-- `GffEntry(line)` together with the accessors the fetch loop touches.
`none` models any of: the `ValueError` from `_parse_attrs` at construction
time, and the `IndexError`/`ValueError` a later `seqid`/`type`/`start`/`end`
property access would raise (too few tab fields or non-integer coordinates);
all of them abort the traversal that decodes the line. -/
def parseEntry (l : Line) : Option GffEntry :=
  let parts := splitTabs l
  let attrs := parts.getLastD ""
  let features := parts.dropLast
  if attrsOk attrs then
    match features[0]?, features[1]?, features[2]?, features[3]?, features[4]? with
    | some f0, some f1, some f2, some f3, some f4 =>
      match pyInt? f3, pyInt? f4 with
      | some s, some e => some ⟨f0, f1, f2, s, e⟩
      | _, _ => none
    | _, _, _, _, _ => none
  else none

/-- Errors that abort the two index-building passes. -/
inductive GenErr
  /-- `IndexError` from `f_line[3]` in `_gen_index`, or the unpack
  `ValueError` in `_get_thresholds`: fewer than 4 tab fields. -/
  | indexError
  /-- `ValueError` from `int(start)` on a non-numeric field. -/
  | valueError
  /-- `KeyError` from `thresholds[seqid]`. -/
  | keyError
  /-- `TypeError` from comparing an `int` with `None`
  (`start - prev_start > curr_threshold` with `curr_threshold is None`). -/
  | typeErrorCmpNone
  /-- `TypeError` from `bytes.startswith(str)`: a gzip handle yields `bytes`
  lines but the passes were called with `gzipped=False`, so the lines are
  never decoded before `line.startswith('#')`. -/
  | typeErrorBytesStr
deriving DecidableEq

/-- Extract `seqid = f_line[0]` and `start = int(f_line[3])` from a record
line, with the exceptions both passes can raise. -/
def parseSeqStart (l : Line) : Except GenErr (String × Int) :=
  let parts := splitTabs l
  match parts[3]? with
  | none => .error .indexError
  | some f3 =>
    match pyInt? f3 with
    | none => .error .valueError
    | some st => .ok (parts.headD "", st)

/-- A line's record content as both passes see it: `none` for a comment
line, the empty string, or a line whose seqid/start extraction raises. -/
def recOf? (l : Line) : Option (String × Int) :=
  if startsHash l ∨ l = "" then none else (parseSeqStart l).toOption

/-- The `(seqid, start)` pairs of the record lines of a file, in order. -/
def recList (lines : List Line) : List (String × Int) := lines.filterMap recOf?

/-- `OrderedSet.add` inside the per-seqid `diffs` dict of `_get_thresholds`:
first-seen ordered, duplicate-free starts per seqid. -/
def osAdd (acc : List (String × List Int)) (s : String) (v : Int) :
    List (String × List Int) :=
  match alookup acc s with
  | none => acc ++ [(s, [v])]
  | some xs => if v ∈ xs then acc else odModify acc s (fun ys => ys ++ [v])

/-- The line loop of `_get_thresholds` (core.py:250-256). -/
def pass1Go (acc : List (String × List Int)) : List Line → Except GenErr (List (String × List Int))
  | [] => .ok acc
  | l :: ls =>
    if l = "" ∨ startsHash l then pass1Go acc ls
    else
      match parseSeqStart l with
      | .error e => .error e
      | .ok (s, st) => pass1Go (osAdd acc s st) ls

/-- numpy `np.float64('nan').astype(int)`: the value of casting the NaN mean
of an empty difference series to a 64-bit integer (INT64_MIN on the
platforms the package targets). -/
def int64NanCast : Int := -(2 ^ 63)

/-- `pd.Series(xs).diff(periods=p).dropna().mean().astype(int)`
(core.py:242): the pairwise differences `xs[i] - xs[i-p]`, arithmetic mean,
truncated toward zero (the float64 mean is exact at these magnitudes).  An
empty difference list gives a NaN mean whose int cast is `int64NanCast`. -/
def pandasThresh (xs : List Int) (p : Nat) : Int :=
  let d := List.zipWith (fun a b => a - b) (xs.drop p) xs
  if d.length = 0 then int64NanCast else Int.tdiv d.sum d.length

/-- `_get_average_diffs` (core.py:238-243). -/
def averageDiffs (acc : List (String × List Int)) (periods : Nat) : List (String × Int) :=
  acc.map (fun kv => (kv.1, pandasThresh kv.2 periods))

/-- `_get_thresholds` (core.py:246-259).  `bytesLines` records whether the
handle yields `bytes` (a gzip handle); `gzipped` is the function's own flag
that decides whether lines are decoded.  When `bytesLines` is true and
`gzipped` is false, the first nonempty line raises `TypeError` at
`line.startswith('#')` (`not line` is checked first and only skips an empty
byte string). -/
def getThresholds (lines : List Line) (bytesLines : Bool) (periods : Nat)
    (gzipped : Bool) : Except GenErr (List (String × Int)) :=
  if bytesLines ∧ ¬gzipped ∧ lines.any (fun l => l ≠ "") then .error .typeErrorBytesStr
  else
    match pass1Go [] lines with
    | .error e => .error e
    | .ok acc => .ok (averageDiffs acc periods)

/-- One seqid's slot of the sparse index:
`index[seqid] = {'start': OrderedDict, 'pos': OrderedDict}`. -/
structure SeqIndex where
  start : List (Nat × Int)
  pos : List (Nat × Nat)
deriving DecidableEq

abbrev Index := List (String × SeqIndex)

/-- The mutable loop state of `_gen_index` (core.py:265-269). -/
structure GenState where
  index : Index
  currPos : Nat
  currIdx : Nat
  currThreshold : Option Int
  prevStart : Option Int
deriving DecidableEq

def initGenState : GenState := ⟨[], 0, 0, none, none⟩

/-- `prev_start is None or (start - prev_start) > curr_threshold`
(core.py:283).  Comparing with a `None` threshold would raise `TypeError`
in Python 3 (unreachable from the initial state). -/
def emitTest (prev : Option Int) (thr : Option Int) (start : Int) : Except GenErr Bool :=
  match prev with
  | none => .ok true
  | some p =>
    match thr with
    | some t => .ok (decide (start - p > t))
    | none => .error .typeErrorCmpNone

/-- One iteration of the `_gen_index` line loop (core.py:270-289). -/
def genStep (th : List (String × Int)) (st : GenState) (l : Line) :
    Except GenErr GenState :=
  if startsHash l ∨ l = "" then .ok { st with currPos := st.currPos + l.length }
  else
    match parseSeqStart l with
    | .error e => .error e
    | .ok (seqid, start) =>
      -- `if seqid not in index:` reset the running state and fetch the threshold
      match (if (alookup st.index seqid).isNone then
              (alookup th seqid).map
                (fun t => { st with prevStart := none, currIdx := 0, currThreshold := some t })
             else some st) with
      | none => .error .keyError
      | some st1 =>
        match emitTest st1.prevStart st1.currThreshold start with
        | .error e => .error e
        | .ok true =>
          let idx1 := odSetdefault st1.index seqid ⟨[], []⟩
          let idx2 := odModify idx1 seqid (fun si =>
            { start := odSetdefault si.start st1.currIdx start,
              pos := odSetdefault si.pos st1.currIdx st1.currPos })
          .ok { index := idx2, currPos := st1.currPos + l.length,
                currIdx := st1.currIdx + 1, currThreshold := st1.currThreshold,
                prevStart := some start }
        | .ok false => .ok { st1 with currPos := st1.currPos + l.length }

/-- The whole second pass of `_gen_index`. -/
def genFoldGo (th : List (String × Int)) (st : GenState) : List Line → Except GenErr GenState
  | [] => .ok st
  | l :: ls =>
    match genStep th st l with
    | .error e => .error e
    | .ok st2 => genFoldGo th st2 ls

/-- `_gen_index` (core.py:262-290): pass 1 for the thresholds, then the
indexing pass.  In `_gen_index` the `startswith` test precedes `not line`,
so byte lines raise `TypeError` even when empty. -/
def genIndexRun (lines : List Line) (bytesLines : Bool) (periods : Nat)
    (gzipped : Bool) : Except GenErr Index :=
  match getThresholds lines bytesLines periods gzipped with
  | .error e => .error e
  | .ok th =>
    if bytesLines ∧ ¬gzipped ∧ lines ≠ [] then .error .typeErrorBytesStr
    else
      match genFoldGo th initGenState lines with
      | .error e => .error e
      | .ok st => .ok st.index

inductive InitError
  /-- The exception (`IndexError`/`ValueError`) escaping `_is_version_3`
  when the version directive is missing or malformed. -/
  | versionCheckCrash
  /-- The `raise TypeError('GFF file version is {}...'.format(version))`
  statement itself raises `NameError`: `version` is not defined in
  `GffFile.__init__` (core.py:339). -/
  | nameErrorUnboundVersion
  /-- An exception escaping `_gen_index`. -/
  | genError (e : GenErr)
deriving DecidableEq

/-- An open `GffFile` session: the stream content plus the index built at
open time. -/
structure GffFile where
  lines : List Line
  index : Index
deriving DecidableEq

/-- Python `int(bool)`. -/
def pyBoolInt (b : Bool) : Nat := if b then 1 else 0

/-- The threshold table as computed on the `GffFile.__init__` path: since
`__init__` calls `_gen_index(self._handle, gzipped)` (core.py:340), the
boolean `gzipped` is passed positionally as `periods` and the `gzipped`
keyword stays `False`. -/
def initThresholds (lines : List Line) (gzipped : Bool) :
    Except GenErr (List (String × Int)) :=
  getThresholds lines gzipped (pyBoolInt gzipped) false

/-- `GffFile.__init__` (core.py:320-340).  The `period` argument is
accepted (documented as the indexing period, default 3) but never used:
`_gen_index` receives `gzipped` in its place. -/
def gffInit (lines : List Line) (gzipped : Bool) (period : Nat) :
    Except InitError GffFile :=
  let _ := period
  match isVersion3 lines with
  | none => .error .versionCheckCrash
  | some false => .error .nameErrorUnboundVersion
  | some true =>
    match genIndexRun lines gzipped (pyBoolInt gzipped) false with
    | .error e => .error (.genError e)
    | .ok idx => .ok { lines := lines, index := idx }

/-! ## Region fetch (`fetch`, `_find_le`, `__next__`) -/

inductive FetchError
  /-- `KeyError` from `self._index[seqid]`: seqid absent from the index. -/
  | keyErrorUnknownSeq
  /-- `ValueError` from `_find_le`: `start` precedes every indexed start. -/
  | valueErrorOutOfRange
  /-- `KeyError` from `container['pos'][i-1]` (malformed index only). -/
  | keyErrorPos
  /-- A seek offset that is not a line boundary (never produced by
  `_gen_index`; a real seek there would hand garbage to the scanner). -/
  | midLineSeek
deriving DecidableEq

/-- `bisect.bisect_right`: the insertion point after any entries equal to
`x`.  The library routine is a binary search whose contract holds on sorted
input; this linear recursion computes the same insertion point on sorted
lists. -/
def bisectRight : List Int → Int → Nat
  | [], _ => 0
  | a :: as, x => if x < a then 0 else bisectRight as x + 1

/-- `_find_le` (core.py:293-300). -/
def findLe (si : SeqIndex) (start : Int) : Except FetchError Nat :=
  let i := bisectRight (odValues si.start) start
  if i ≠ 0 then
    match alookup si.pos (i - 1) with
    | some p => .ok p
    | none => .error .keyErrorPos
  else .error .valueErrorOutOfRange

/-- `handle.seek(off)` followed by line iteration: the remaining lines when
`off` is a line boundary, `none` otherwise. -/
def seekToOffset : List Line → Nat → Option (List Line)
  | ls, 0 => some ls
  | [], _ + 1 => none
  | l :: ls, n + 1 =>
    if n + 1 < l.length then none else seekToOffset ls (n + 1 - l.length)

/-- How a `fetch` generator run ends after its yields. -/
inductive FetchOutcome
  /-- The `break` in the scan loop (past the region or past the seqid). -/
  | normalStop
  /-- The stream is exhausted: `next(self)` returns `None` (the `for` loop
  in `__next__` falls through) and `entry.seqid` raises `AttributeError`. -/
  | attrErrorNone
  /-- Decoding a line into a `GffEntry` raised. -/
  | parseCrash
deriving DecidableEq

/-- The scan loop of `fetch` (core.py:359-379), with `__next__`'s comment
skipping inlined (core.py:387-394).  Returns the entries yielded before the
loop ends together with how it ended. -/
def fetchScan (seqid : String) (qstart qend : Int) (ty : Option String) :
    List Line → List GffEntry × FetchOutcome
  | [] => ([], .attrErrorNone)
  | l :: ls =>
    if startsHash l then fetchScan seqid qstart qend ty ls
    else
      match parseEntry l with
      | none => ([], .parseCrash)
      | some e =>
        if e.seqid = seqid then
          if e.end_ < qstart then fetchScan seqid qstart qend ty ls
          else if e.start ≥ qend then ([], .normalStop)
          else
            match ty with
            | some t =>
              if e.type ≠ t then fetchScan seqid qstart qend ty ls
              else
                let r := fetchScan seqid qstart qend ty ls
                (e :: r.1, r.2)
            | none =>
              let r := fetchScan seqid qstart qend ty ls
              (e :: r.1, r.2)
        else if pyStrLt e.seqid seqid then fetchScan seqid qstart qend ty ls
        else ([], .normalStop)

/-- The seek phase of `fetch` (core.py:356-357): index lookup, predecessor
search, seek. -/
def seekSuffix (g : GffFile) (seqid : String) (qstart : Int) :
    Except FetchError (List Line) :=
  match alookup g.index seqid with
  | none => .error .keyErrorUnknownSeq
  | some si =>
    match findLe si qstart with
    | .error e => .error e
    | .ok off =>
      match seekToOffset g.lines off with
      | some suffix => .ok suffix
      | none => .error .midLineSeek

/-- `GffFile.fetch` (core.py:342-379).  A pre-scan failure carries no
yields (the generator raises before its first yield). -/
def fetch (g : GffFile) (seqid : String) (qstart qend : Int) (ty : Option String) :
    Except FetchError (List GffEntry × FetchOutcome) :=
  match seekSuffix g seqid qstart with
  | .error e => .error e
  | .ok suffix => .ok (fetchScan seqid qstart qend ty suffix)

/-- The possible results of one `GffFile.__next__` call (core.py:387-394).
`stopIteration` is what the iterator protocol needs at end of stream; it is
in the type so that theorems can state that the code never produces it. -/
inductive NextResult
  | entry (e : GffEntry) (rest : List Line)
  /-- The `for` loop exhausts the handle and `__next__` implicitly returns
  `None`; the caller receives `None` as a value, not a stop signal. -/
  | noneValue
  /-- Decoding the line raised (`GffEntry` on a blank or malformed line). -/
  | parseError
  | stopIteration
deriving DecidableEq

/-- `GffFile.__next__`: skip comment lines, decode the first other line. -/
def gffNext : List Line → NextResult
  | [] => .noneValue
  | l :: ls =>
    if startsHash l then gffNext ls
    else
      match parseEntry l with
      | some e => .entry e ls
      | none => .parseError

end Pygff

namespace Pygff

/-! ## Concrete scenario files

Plain-text GFF3 files used in the spec's scenarios and in witnesses.  Lines
are written exactly as Python file iteration yields them. -/

def c1Line100 : Line := "chr1\t.\tgene\t100\t10000\t.\t+\t.\tID=a\n"

/-- A sorted, single-seqid file containing a long feature (100..10000) that
overlaps regions far to the right of its start. -/
def c1File : List Line := ["##gff-version 3\n",
  c1Line100,
  "chr1\t.\tgene\t500\t600\t.\t+\t.\tID=b\n",
  "chr1\t.\tgene\t20000\t20010\t.\t+\t.\tID=c\n"]

def c1rec100 : GffEntry := ⟨"chr1", ".", "gene", 100, 10000⟩

def c1rec500 : GffEntry := ⟨"chr1", ".", "gene", 500, 600⟩

def c1Session : GffFile :=
  match gffInit c1File false 3 with
  | .ok g => g
  | .error _ => { lines := [], index := [] }

/-- The gzip scenario file of the spec (`chr1` 100-200, 300-400, 500-600),
as its decoded line content. -/
def c5Lines : List Line := ["##gff-version 3\n",
  "chr1\t.\tgene\t100\t200\t.\t+\t.\tID=a\n",
  "chr1\t.\tgene\t300\t400\t.\t+\t.\tID=b\n",
  "chr1\t.\tgene\t500\t600\t.\t+\t.\tID=c\n"]

def c5Session : GffFile :=
  match gffInit c5Lines false 3 with
  | .ok g => g
  | .error _ => { lines := [], index := [] }

def c5rec300 : GffEntry := ⟨"chr1", ".", "gene", 300, 400⟩

/-- The `MissingThreshold` scenario file: `chr1` starts 10, 20, 30, 1000 and
`chr2` with the single start 5. -/
def c6File : List Line := ["##gff-version 3\n",
  "chr1\t.\tgene\t10\t15\t.\t+\t.\tID=a\n",
  "chr1\t.\tgene\t20\t25\t.\t+\t.\tID=b\n",
  "chr1\t.\tgene\t30\t35\t.\t+\t.\tID=c\n",
  "chr1\t.\tgene\t1000\t1005\t.\t+\t.\tID=d\n",
  "chr2\t.\tgene\t5\t8\t.\t+\t.\tID=e\n"]

def c6Session : GffFile :=
  match gffInit c6File false 3 with
  | .ok g => g
  | .error _ => { lines := [], index := [] }

/-- The byte offset of the `chr2` record of `c6File` (sum of the lengths of
the five preceding lines). -/
def c6chr2pos : Nat := (c6File.take 5).foldl (fun a l => a + l.length) 0

def c6chr1si : SeqIndex :=
  ⟨[(0, 10), (1, 20), (2, 30), (3, 1000)], [(0, 16), (1, 45), (2, 74), (3, 103)]⟩

/-- A version-3 file with a blank line between records. -/
def c10bFile : List Line := ["##gff-version 3\n", "\n",
  "chr1\t.\tgene\t10\t15\t.\t+\t.\tID=a\n"]

/-- A version-3 file with a comment line between records. -/
def c10cFile : List Line := ["##gff-version 3\n", "# a comment\n",
  "chr1\t.\tgene\t10\t15\t.\t+\t.\tID=a\n"]

end Pygff

namespace Pygff

/-! ## Small lemmas about the fetch entry points -/

/-- `bisect_right` returns 0 when the query precedes every listed value. -/
theorem bisectRight_eq_zero (xs : List Int) (s : Int) (h : ∀ v ∈ xs, s < v) :
    bisectRight xs s = 0 := by
  cases xs with
  | nil => rfl
  | cons a as => simp [bisectRight, h a (List.mem_cons_self a as)]

/-! ## C1 -/

/-- C1 counterexample.  On the sorted, contiguous file `c1File`, the record
`chr1 100..10000` overlaps the query region `[550, 560)` (its `end_` is
`≥ 550` and its `start` is `< 560`), yet `fetch "chr1" 550 560` yields only
the `500..600` record: the predecessor search seeks to the checkpoint with
start 500 and the scan never visits the earlier long record.  This refutes
the claim that every overlapping record in the file is yielded. -/
theorem C1_counterexample :
    gffInit c1File false 3 = .ok c1Session ∧
    fetch c1Session "chr1" 550 560 none = .ok ([c1rec500], .normalStop) ∧
    c1Line100 ∈ c1File ∧ parseEntry c1Line100 = some c1rec100 ∧
    c1rec100.seqid = "chr1" ∧ (550 : Int) ≤ c1rec100.end_ ∧ c1rec100.start < 560 ∧
    c1rec100 ∉ [c1rec500] := by
  decide

/-! ## C4 -/

/-- C4: the `period` argument of `GffFile.__init__` does not control the
threshold computation.  On `c6File` (whose `chr1` has the distinct starts
10, 20, 30, 1000), opening with `period = 3` stores the threshold 0 for
`chr1` — `__init__` passes `gzipped` (i.e. `False`, numerically 0) as the
pandas `periods` — whereas the claimed computation (mean of the period-3
pairwise differences, truncated) gives 990. -/
theorem C4_period_ignored :
    initThresholds c6File false = .ok [("chr1", 0), ("chr2", 0)] ∧
    pandasThresh [10, 20, 30, 1000] 3 = 990 ∧ (0 : Int) ≠ 990 := by
  decide

/-! ## C5 -/

/-- C5: gzip magic detection itself works (`0x1F 0x8B 0x08`), but opening a
gzip-compressed version-3 file does not: `__init__` calls
`_gen_index(self._handle, gzipped)`, so inside the passes `gzipped` is
`False` while the handle yields `bytes`, and the first line comparison
`line.startswith('#')` raises `TypeError`.  The scenario fetch is never
reached. -/
theorem C5_gzip_open_crashes :
    isZipped [31, 139, 8, 0, 0] = some true ∧
    isZipped [35, 103, 102, 102] = some false ∧
    gffInit c5Lines true 3 = .error (.genError .typeErrorBytesStr) := by
  decide

/-! ## C6 -/

/-- C6 counterexample: opening the scenario file (`chr1` starts 10, 20, 30,
1000; `chr2` start 5) with `period = 3` does **not** fail: it succeeds and
builds an index, refuting the claim that it must fail with
`MissingThreshold`. -/
theorem C6_counterexample : gffInit c6File false 3 = .ok c6Session := by
  decide

/-- C6 amended: no seqid is ever omitted from the threshold table and no
missing-threshold failure exists.  On the open path the supplied period is
ignored (`_gen_index` receives `gzipped = False` as `periods`), so every
seqid — `chr2` included — receives threshold 0, opening succeeds, and
`chr2`'s single record is indexed.  Even the claimed period-3 computation
would not omit `chr2`: `_get_average_diffs` casts the NaN mean of an empty
difference series to an int (`int64NanCast`) instead of dropping the key. -/
theorem C6_amended :
    initThresholds c6File false = .ok [("chr1", 0), ("chr2", 0)] ∧
    alookup c6Session.index "chr2" = some ⟨[(0, 5)], [(0, c6chr2pos)]⟩ ∧
    averageDiffs [("chr2", [5])] 3 = [("chr2", int64NanCast)] := by
  decide

/-! ## C7 -/

/-- C7: a fetch for a seqid absent from the sparse index raises `KeyError`
(`self._index[seqid]`) before any record is yielded, and a fetch whose
`start` precedes every indexed start coordinate of the seqid raises
`ValueError` in `_find_le` (`bisect_right` returns 0), again with no
partial results. -/
theorem C7_fetch_failures (g : GffFile) (q : String) (s e : Int) (ty : Option String) :
    (alookup g.index q = none → fetch g q s e ty = .error .keyErrorUnknownSeq) ∧
    (∀ si, alookup g.index q = some si → (∀ v ∈ odValues si.start, s < v) →
      fetch g q s e ty = .error .valueErrorOutOfRange) := by
  constructor
  · intro h
    simp [fetch, seekSuffix, h]
  · intro si h hlt
    simp [fetch, seekSuffix, h, findLe, bisectRight_eq_zero _ _ hlt]

/-- Witness for C7 on the concrete session of `c6File`: `chrX` is absent
from the index, and 5 precedes every indexed `chr1` start. -/
theorem C7_fetch_failures_witness :
    fetch c6Session "chrX" 1 100 none = .error .keyErrorUnknownSeq ∧
    fetch c6Session "chr1" 5 7 none = .error .valueErrorOutOfRange :=
  ⟨(C7_fetch_failures c6Session "chrX" 1 100 none).1 (by decide),
   (C7_fetch_failures c6Session "chr1" 5 7 none).2 c6chr1si (by decide) (by decide)⟩

/-! ## C8 -/

/-- C8: `__next__` never signals end-of-stream.  On an exhausted handle the
`for` loop falls through and the method implicitly returns `None` (so
whole-file iteration receives `None` as a value forever instead of
terminating), and a blank line is not skipped: `GffEntry('\n')` raises.
The `stopIteration` signal required by the claim is never produced. -/
theorem C8_next_no_stop :
    gffNext [] = .noneValue ∧ gffNext ["\n"] = .parseError ∧
    ∀ ls : List Line, gffNext ls ≠ .stopIteration := by
  refine ⟨rfl, by decide, ?_⟩
  intro ls
  induction ls with
  | nil => simp [gffNext]
  | cons l ls ih =>
    simp only [gffNext]
    split
    · exact ih
    · cases h : parseEntry l <;> simp

/-! ## C9 -/

/-- C9: on a file whose version directive is not 3, `_is_version_3` does
return `False`, but `GffFile.__init__` then fails with `NameError`, not the
documented `TypeError`: the raise statement formats its message with the
undefined name `version` (core.py:339).  A file with no parseable
directive crashes inside `_is_version_3` instead.  In both cases no usable
session is produced, but the advertised unsupported-version `TypeError`
(which `test_version.py` expects) is never raised. -/
theorem C9_version_error :
    isVersion3 ["##gff-version 2\n"] = some false ∧
    gffInit ["##gff-version 2\n"] false 3 = .error .nameErrorUnboundVersion ∧
    isVersion3 ["\n"] = none ∧
    gffInit ["\n"] false 3 = .error .versionCheckCrash := by
  decide

/-! ## C10 -/

/-- C10: comment lines are skipped by both index-building passes and their
lengths still advance the byte-offset counter (the record after a comment
is indexed at offset 16 + 12 = 28), but blank lines are **not** skipped:
file iteration yields `"\n"`, which is truthy, so the `not line` guard
never fires and both passes crash unpacking the fields of the blank line. -/
theorem C10_blank_lines :
    getThresholds c10bFile false 0 false = .error .indexError ∧
    genIndexRun c10bFile false 0 false = .error .indexError ∧
    genIndexRun c10cFile false 0 false =
      .ok [("chr1", ⟨[(0, 10)], [(0, ("##gff-version 3\n".length + "# a comment\n".length))]⟩)] := by
  decide

end Pygff

namespace Pygff

/-! ## C1 (amended): what the scan loop actually yields -/

/-- The entries `__next__` would decode from a line suffix, in order. -/
def scanRecords (lines : List Line) : List GffEntry :=
  lines.filterMap (fun l => if startsHash l then none else parseEntry l)

/-- Every line of the suffix is a comment or decodes into an entry. -/
def scanWF (lines : List Line) : Bool :=
  lines.all (fun l => startsHash l || (parseEntry l).isSome)

/-- The records of the query seqid form a prefix of the record list
(contiguity from the seek point on). -/
def qPrefix (rs : List GffEntry) (q : String) : Bool :=
  (rs.dropWhile (fun r => r.seqid == q)).all (fun r => r.seqid ≠ q)

/-- The query seqid's records are sorted by ascending start. -/
def qSorted (rs : List GffEntry) (q : String) : Prop :=
  List.Pairwise (fun a b => a.start ≤ b.start) (rs.takeWhile (fun r => r.seqid == q))

/-- `type is None or entry.type == type`, the fetch loop's type filter. -/
def typeOk (ty : Option String) (e : GffEntry) : Bool :=
  match ty with
  | none => true
  | some t => e.type == t


/-! Equation lemmas for the branches of the scan loop. -/

theorem fetchScan_comment {q : String} {s e : Int} {ty : Option String} {l : Line}
    {ls : List Line} (hc : startsHash l = true) :
    fetchScan q s e ty (l :: ls) = fetchScan q s e ty ls := by
  rw [fetchScan, if_pos hc]

theorem fetchScan_parseFail {q : String} {s e : Int} {ty : Option String} {l : Line}
    {ls : List Line} (hc : ¬ startsHash l = true) (hp : parseEntry l = none) :
    fetchScan q s e ty (l :: ls) = ([], .parseCrash) := by
  rw [fetchScan, if_neg hc]
  simp only [hp]

theorem fetchScan_skipLow {q : String} {s e : Int} {ty : Option String} {l : Line}
    {ls : List Line} {e0 : GffEntry} (hc : ¬ startsHash l = true)
    (hp : parseEntry l = some e0) (hq : e0.seqid = q) (h1 : e0.end_ < s) :
    fetchScan q s e ty (l :: ls) = fetchScan q s e ty ls := by
  rw [fetchScan, if_neg hc]
  simp only [hp, if_pos hq, if_pos h1]

theorem fetchScan_breakHigh {q : String} {s e : Int} {ty : Option String} {l : Line}
    {ls : List Line} {e0 : GffEntry} (hc : ¬ startsHash l = true)
    (hp : parseEntry l = some e0) (hq : e0.seqid = q) (h1 : ¬ e0.end_ < s)
    (h2 : e0.start ≥ e) :
    fetchScan q s e ty (l :: ls) = ([], .normalStop) := by
  rw [fetchScan, if_neg hc]
  simp only [hp, if_pos hq, if_neg h1, if_pos h2]

theorem fetchScan_skipType {q : String} {s e : Int} {t : String} {l : Line}
    {ls : List Line} {e0 : GffEntry} (hc : ¬ startsHash l = true)
    (hp : parseEntry l = some e0) (hq : e0.seqid = q) (h1 : ¬ e0.end_ < s)
    (h2 : ¬ e0.start ≥ e) (h3 : e0.type ≠ t) :
    fetchScan q s e (some t) (l :: ls) = fetchScan q s e (some t) ls := by
  rw [fetchScan, if_neg hc]
  simp only [hp, if_pos hq, if_neg h1, if_neg h2, if_pos h3]

theorem fetchScan_yield {q : String} {s e : Int} {ty : Option String} {l : Line}
    {ls : List Line} {e0 : GffEntry} (hc : ¬ startsHash l = true)
    (hp : parseEntry l = some e0) (hq : e0.seqid = q) (h1 : ¬ e0.end_ < s)
    (h2 : ¬ e0.start ≥ e) (hty : typeOk ty e0 = true) :
    fetchScan q s e ty (l :: ls) =
      (e0 :: (fetchScan q s e ty ls).1, (fetchScan q s e ty ls).2) := by
  rw [fetchScan, if_neg hc]
  cases ty with
  | none => simp only [hp, if_pos hq, if_neg h1, if_neg h2]
  | some t =>
    have h3 : e0.type = t := by simpa [typeOk] using hty
    simp only [hp, if_pos hq, if_neg h1, if_neg h2, if_neg (by simp [h3] : ¬ e0.type ≠ t)]

theorem fetchScan_skipSeq {q : String} {s e : Int} {ty : Option String} {l : Line}
    {ls : List Line} {e0 : GffEntry} (hc : ¬ startsHash l = true)
    (hp : parseEntry l = some e0) (hq : ¬ e0.seqid = q) (hlt : pyStrLt e0.seqid q = true) :
    fetchScan q s e ty (l :: ls) = fetchScan q s e ty ls := by
  rw [fetchScan, if_neg hc]
  simp only [hp, if_neg hq, if_pos hlt]

theorem fetchScan_breakSeq {q : String} {s e : Int} {ty : Option String} {l : Line}
    {ls : List Line} {e0 : GffEntry} (hc : ¬ startsHash l = true)
    (hp : parseEntry l = some e0) (hq : ¬ e0.seqid = q)
    (hlt : ¬ pyStrLt e0.seqid q = true) :
    fetchScan q s e ty (l :: ls) = ([], .normalStop) := by
  rw [fetchScan, if_neg hc]
  simp only [hp, if_neg hq, if_neg hlt]

/-- Soundness of the scan loop: every yielded entry is on the query seqid,
overlaps the query region, and passes the type filter — with no assumption
on the file. -/
theorem fetchScan_sound (q : String) (s e : Int) (ty : Option String) :
    ∀ lines r, r ∈ (fetchScan q s e ty lines).1 →
      r.seqid = q ∧ s ≤ r.end_ ∧ r.start < e ∧ typeOk ty r = true := by
  intro lines
  induction lines with
  | nil => intro r hr; simp [fetchScan] at hr
  | cons l ls ih =>
    intro r hr
    by_cases hc : startsHash l
    · rw [fetchScan_comment hc] at hr
      exact ih r hr
    · cases hp : parseEntry l with
      | none => rw [fetchScan_parseFail hc hp] at hr; simp at hr
      | some e0 =>
        by_cases hq : e0.seqid = q
        · by_cases h1 : e0.end_ < s
          · rw [fetchScan_skipLow hc hp hq h1] at hr; exact ih r hr
          · by_cases h2 : e0.start ≥ e
            · rw [fetchScan_breakHigh hc hp hq h1 h2] at hr; simp at hr
            · by_cases hty : typeOk ty e0 = true
              · rw [fetchScan_yield hc hp hq h1 h2 hty] at hr
                rcases List.mem_cons.mp hr with h | h
                · subst h; exact ⟨hq, le_of_not_lt h1, lt_of_not_ge h2, hty⟩
                · exact ih r h
              · cases ty with
                | none => simp [typeOk] at hty
                | some t =>
                  have h3 : e0.type ≠ t := by
                    intro habs; exact hty (by simp [typeOk, habs])
                  rw [fetchScan_skipType hc hp hq h1 h2 h3] at hr
                  exact ih r hr
        · by_cases hlt : pyStrLt e0.seqid q = true
          · rw [fetchScan_skipSeq hc hp hq hlt] at hr; exact ih r hr
          · rw [fetchScan_breakSeq hc hp hq hlt] at hr; simp at hr

/-- A record of the query seqid lies in the contiguous query prefix. -/
theorem mem_q_takeWhile (rs : List GffEntry) (q : String) (h : qPrefix rs q = true)
    (r : GffEntry) (hr : r ∈ rs) (hq : r.seqid = q) :
    r ∈ rs.takeWhile (fun x => x.seqid == q) := by
  have hsplit := List.takeWhile_append_dropWhile (p := fun x => x.seqid == q) (l := rs)
  rw [← hsplit] at hr
  rcases List.mem_append.mp hr with h1 | h2
  · exact h1
  · exfalso
    unfold qPrefix at h
    have := List.all_eq_true.mp h r h2
    simp [hq] at this

/-- Completeness of the scan loop over the scanned suffix: if every line
decodes (or is a comment), the query seqid's records are contiguous from
the seek point and sorted by ascending start, then every record of the
suffix that matches the query is yielded. -/
theorem fetchScan_complete (q : String) (s e : Int) (ty : Option String) :
    ∀ lines, scanWF lines = true → qPrefix (scanRecords lines) q = true →
      qSorted (scanRecords lines) q →
      ∀ r ∈ scanRecords lines, r.seqid = q → s ≤ r.end_ → r.start < e →
        typeOk ty r = true → r ∈ (fetchScan q s e ty lines).1 := by
  intro lines
  induction lines with
  | nil => intro _ _ _ r hr; simp [scanRecords] at hr
  | cons l ls ih =>
    intro hwf hpre hsort r hr hq hend hstart hty
    have hwf' : (startsHash l || (parseEntry l).isSome) = true ∧ scanWF ls = true := by
      have := hwf
      simp only [scanWF, List.all_cons, Bool.and_eq_true] at this
      exact this
    by_cases hc : startsHash l
    · have hrec : scanRecords (l :: ls) = scanRecords ls := by
        simp [scanRecords, List.filterMap_cons, hc]
      rw [fetchScan_comment hc]
      rw [hrec] at hpre hsort hr
      exact ih hwf'.2 hpre hsort r hr hq hend hstart hty
    · cases hp : parseEntry l with
      | none =>
        exfalso
        have := hwf'.1
        simp [hc, hp] at this
      | some e0 =>
        have hrec : scanRecords (l :: ls) = e0 :: scanRecords ls := by
          simp [scanRecords, List.filterMap_cons, hc, hp]
        rw [hrec] at hpre hsort hr
        by_cases hq0 : e0.seqid = q
        · have hpre1 : qPrefix (scanRecords ls) q = true := by
            unfold qPrefix at hpre ⊢
            rwa [List.dropWhile_cons_of_pos (by simp [hq0])] at hpre
          have hsort' : List.Pairwise (fun a b => a.start ≤ b.start)
              (e0 :: (scanRecords ls).takeWhile (fun x => x.seqid == q)) := by
            have := hsort
            unfold qSorted at this
            rwa [List.takeWhile_cons_of_pos (by simp [hq0])] at this
          have hsort1 : qSorted (scanRecords ls) q := hsort'.of_cons
          rcases List.mem_cons.mp hr with hre | hrm
          · -- r is the record decoded from this very line, and it matches
            subst hre
            rw [fetchScan_yield hc hp hq0 (not_lt.mpr hend) (not_le.mpr hstart) hty]
            exact List.mem_cons_self _ _
          · by_cases h1 : e0.end_ < s
            · rw [fetchScan_skipLow hc hp hq0 h1]
              exact ih hwf'.2 hpre1 hsort1 r hrm hq hend hstart hty
            · have h2 : ¬ e0.start ≥ e := by
                -- a later record of the seqid matches, so this one is not past `e`
                intro hge
                have hmem := mem_q_takeWhile (scanRecords ls) q hpre1 r hrm hq
                have hle := (List.pairwise_cons.mp hsort').1 r hmem
                exact absurd hstart (not_lt.mpr (le_trans hge hle))
              by_cases hty0 : typeOk ty e0 = true
              · rw [fetchScan_yield hc hp hq0 h1 h2 hty0]
                exact List.mem_cons_of_mem _ (ih hwf'.2 hpre1 hsort1 r hrm hq hend hstart hty)
              · cases ty with
                | none => simp [typeOk] at hty0
                | some t =>
                  have h3 : e0.type ≠ t := by
                    intro habs; exact hty0 (by simp [typeOk, habs])
                  rw [fetchScan_skipType hc hp hq0 h1 h2 h3]
                  exact ih hwf'.2 hpre1 hsort1 r hrm hq hend hstart hty
        · exfalso
          -- contiguity: a non-query record here means no query record follows
          unfold qPrefix at hpre
          rw [List.dropWhile_cons_of_neg (by simp [hq0])] at hpre
          have := List.all_eq_true.mp hpre r hr
          simp [hq] at this

end Pygff

namespace Pygff

/-- C1 amended: what `fetch` actually guarantees.  Unconditionally, every
yielded record is on the query seqid, overlaps `[start, end)` (`end_rec ≥
start` and `start_rec < end`) and passes the type filter — so no record
with `end_rec < start` or `start_rec ≥ end` is ever yielded.  Completeness
holds only from the seek checkpoint on: among the records at or after the
byte offset chosen by the predecessor search, every matching record is
yielded (given that the scanned suffix decodes cleanly and the query
seqid's records are contiguous there and sorted by ascending start).
Matching records located before the checkpoint — long features whose start
precedes the rightmost indexed start `≤ start` — are silently missed, as
`C1_counterexample` shows. -/
theorem C1_amended (g : GffFile) (q : String) (s e : Int) (ty : Option String)
    (suffix : List Line) (hseek : seekSuffix g q s = .ok suffix)
    (ys : List GffEntry) (out : FetchOutcome)
    (hfetch : fetch g q s e ty = .ok (ys, out)) :
    (∀ r ∈ ys, r.seqid = q ∧ s ≤ r.end_ ∧ r.start < e ∧ typeOk ty r = true) ∧
    (scanWF suffix = true → qPrefix (scanRecords suffix) q = true →
      qSorted (scanRecords suffix) q →
      ∀ r ∈ scanRecords suffix, r.seqid = q → s ≤ r.end_ → r.start < e →
        typeOk ty r = true → r ∈ ys) := by
  have hys : (fetchScan q s e ty suffix).1 = ys := by
    unfold fetch at hfetch
    rw [hseek] at hfetch
    have := Except.ok.inj hfetch
    rw [this]
  constructor
  · intro r hr
    rw [← hys] at hr
    exact fetchScan_sound q s e ty suffix r hr
  · intro hwf hpre hsort r hr hq hend hstart hty
    rw [← hys]
    exact fetchScan_complete q s e ty suffix hwf hpre hsort r hr hq hend hstart hty

/-- Witness for the amended C1 on the plain scenario file: fetching
`[250, 450)` on `c5Lines` seeks to the first record's offset and yields the
matching `300..400` record; both the soundness and the completeness parts
of `C1_amended` apply there. -/
theorem C1_amended_witness :
    c5rec300 ∈ [c5rec300] ∧ c5rec300.seqid = "chr1" ∧ (250 : Int) ≤ c5rec300.end_ :=
  have T := C1_amended c5Session "chr1" 250 450 none (c5Lines.drop 1) (by decide)
    [c5rec300] .normalStop (by decide)
  ⟨T.2 (by decide) (by decide) (by unfold qSorted; decide) c5rec300 (by decide) rfl (by decide)
      (by decide) (by decide),
   (T.1 c5rec300 (List.mem_cons_self _ _)).1, (T.1 c5rec300 (List.mem_cons_self _ _)).2.1⟩

end Pygff

namespace Pygff

/-! ## C2/C3: correspondence between `_gen_index` and the spec's emission
rule, and the index invariants -/

/-- Modelled from the spec's emission rule (§4.2), for grouped files: walk
the lines keeping the current block's `(seqid, previous emitted start)` and
the running byte offset; emit on the first record of each seqid and
whenever `start - previous > threshold`; every line — emitted or not —
advances the offset by its length. -/
def specEmitTest (th : List (String × Int)) (cur : Option (String × Int))
    (s : String) (st : Int) : Bool :=
  match cur with
  | some c => if c.1 = s then decide (st - c.2 > (alookup th s).getD 0) else true
  | none => true

def specEmitGo (th : List (String × Int)) (cur : Option (String × Int)) (pos : Nat) :
    List Line → List (String × Int × Nat)
  | [] => []
  | l :: ls =>
    match recOf? l with
    | none => specEmitGo th cur (pos + l.length) ls
    | some (s, st) =>
      if specEmitTest th cur s st then
        (s, st, pos) :: specEmitGo th (some (s, st)) (pos + l.length) ls
      else specEmitGo th cur (pos + l.length) ls

theorem specEmitTest_none (th : List (String × Int)) (s : String) (st : Int) :
    specEmitTest th none s st = true := rfl

theorem specEmitTest_same (th : List (String × Int)) (c1 : String) (p : Int)
    (s : String) (st : Int) (h : c1 = s) :
    specEmitTest th (some (c1, p)) s st = decide (st - p > (alookup th s).getD 0) := by
  subst h
  simp [specEmitTest]

theorem specEmitTest_diff (th : List (String × Int)) (c1 : String) (p : Int)
    (s : String) (st : Int) (h : c1 ≠ s) :
    specEmitTest th (some (c1, p)) s st = true := by
  simp [specEmitTest, h]

/-- The seqids of the record lines still ahead. -/
def upSeqids (lines : List Line) : List String := (recList lines).map (·.1)

/-- Records for each seqid are contiguous, relative to the block cursor:
whenever the seqid changes, the old one never recurs. -/
def groupedFrom (cur : Option String) : List Line → Bool
  | [] => true
  | l :: ls =>
    match recOf? l with
    | none => groupedFrom cur ls
    | some (s, _) =>
      match cur with
      | some c =>
        if s = c then groupedFrom cur ls
        else (!((upSeqids ls).contains c)) && groupedFrom (some s) ls
      | none => groupedFrom (some s) ls

/-- One seqid's slot of the index flattened to `(seqid, start, pos)`
triples in local-index order. -/
def flattenOne (s : String) (si : SeqIndex) : List (String × Int × Nat) :=
  (si.start.zip si.pos).map (fun p => (s, p.1.2, p.2.2))

/-- The whole sparse index as `(seqid, start, pos)` triples, seqids in
insertion order. -/
def indexFlatten (idx : Index) : List (String × Int × Nat) :=
  idx.flatMap (fun kv => flattenOne kv.1 kv.2)

/-- Well-formedness of one index slot: the `OrderedDict` keys are exactly
`0, 1, 2, …` in order, both dicts have the same size, and the slot is
nonempty. -/
def siOK (si : SeqIndex) : Prop :=
  si.start.map (·.1) = List.range si.start.length ∧
  si.pos.map (·.1) = List.range si.pos.length ∧
  si.start.length = si.pos.length ∧ si.start ≠ []

/-- Well-formedness of the whole index: seqid keys are distinct and every
slot is well-formed. -/
def structOK (idx : Index) : Prop :=
  (idx.map (·.1)).Nodup ∧ ∀ kv ∈ idx, siOK kv.2

/-! Association-list lemmas. -/

theorem alookup_eq_none_iff {κ α : Type} [DecidableEq κ] (l : List (κ × α)) (k : κ) :
    alookup l k = none ↔ ∀ kv ∈ l, kv.1 ≠ k := by
  induction l with
  | nil => simp [alookup]
  | cons kv rest ih =>
    by_cases h : kv.1 = k
    · simp [alookup, h]
    · simp [alookup, h, ih]

theorem alookup_append_of_none {κ α : Type} [DecidableEq κ] (l1 l2 : List (κ × α))
    (k : κ) (h : alookup l1 k = none) : alookup (l1 ++ l2) k = alookup l2 k := by
  induction l1 with
  | nil => simp
  | cons kv rest ih =>
    by_cases hk : kv.1 = k
    · rw [alookup, if_pos hk] at h; exact absurd h (by simp)
    · rw [alookup, if_neg hk] at h
      rw [List.cons_append, alookup, if_neg hk]
      exact ih h

theorem alookup_mem {κ α : Type} [DecidableEq κ] (l : List (κ × α)) (k : κ) (v : α)
    (h : alookup l k = some v) : (k, v) ∈ l := by
  induction l with
  | nil => simp [alookup] at h
  | cons kv rest ih =>
    by_cases hk : kv.1 = k
    · rw [alookup, if_pos hk] at h
      have : kv = (k, v) := by
        cases kv; cases hk; cases Option.some.inj h; rfl
      simp [this]
    · rw [alookup, if_neg hk] at h
      exact List.mem_cons_of_mem _ (ih h)

theorem odSetdefault_absent {κ α : Type} [DecidableEq κ] (l : List (κ × α)) (k : κ)
    (v : α) (h : alookup l k = none) : odSetdefault l k v = l ++ [(k, v)] := by
  rw [odSetdefault, if_neg (by simp [h])]

theorem odSetdefault_present {κ α : Type} [DecidableEq κ] (l : List (κ × α)) (k : κ)
    (v : α) (h : (alookup l k).isSome) : odSetdefault l k v = l := by
  rw [odSetdefault, if_pos h]

theorem odModify_of_absent {κ α : Type} [DecidableEq κ] (l : List (κ × α)) (k : κ)
    (f : α → α) (h : alookup l k = none) : odModify l k f = l := by
  induction l with
  | nil => rfl
  | cons kv rest ih =>
    by_cases hk : kv.1 = k
    · rw [alookup, if_pos hk] at h; exact absurd h (by simp)
    · rw [alookup, if_neg hk] at h
      simp only [odModify, List.map_cons, if_neg hk]
      have := ih h
      simp only [odModify] at this
      rw [this]

theorem odModify_last {κ α : Type} [DecidableEq κ] (l : List (κ × α)) (k : κ)
    (v : α) (f : α → α) (h : alookup l k = none) :
    odModify (l ++ [(k, v)]) k f = l ++ [(k, f v)] := by
  simp only [odModify, List.map_append]
  have h2 : odModify l k f = l := odModify_of_absent l k f h
  simp only [odModify] at h2
  rw [h2]
  simp

theorem alookup_odModify_ne {κ α : Type} [DecidableEq κ] (l : List (κ × α)) (k k2 : κ)
    (f : α → α) (h : k2 ≠ k) : alookup (odModify l k f) k2 = alookup l k2 := by
  induction l with
  | nil => rfl
  | cons kv rest ih =>
    by_cases hk : kv.1 = k
    · simp only [odModify, List.map_cons, if_pos hk]
      rw [alookup, alookup, if_neg (by rw [hk]; exact fun hh => h hh.symm),
        if_neg (by rw [hk]; exact fun hh => h hh.symm)]
      exact ih
    · simp only [odModify, List.map_cons, if_neg hk]
      by_cases hk2 : kv.1 = k2
      · rw [alookup, alookup, if_pos hk2, if_pos hk2]
      · rw [alookup, alookup, if_neg hk2, if_neg hk2]
        exact ih

theorem odModify_keys {κ α : Type} [DecidableEq κ] (l : List (κ × α)) (k : κ)
    (f : α → α) : (odModify l k f).map (·.1) = l.map (·.1) := by
  induction l with
  | nil => rfl
  | cons kv rest ih =>
    by_cases hk : kv.1 = k
    · simp only [odModify, List.map_cons, if_pos hk] at ih ⊢
      rw [ih]
    · simp only [odModify, List.map_cons, if_neg hk] at ih ⊢
      rw [ih]

theorem indexFlatten_append (a b : Index) :
    indexFlatten (a ++ b) = indexFlatten a ++ indexFlatten b := by
  simp [indexFlatten]

theorem zip_snoc {α β : Type} (a : List α) (b : List β) (x : α) (y : β)
    (h : a.length = b.length) :
    (a ++ [x]).zip (b ++ [y]) = a.zip b ++ [(x, y)] := by
  induction a generalizing b with
  | nil => cases b with
    | nil => rfl
    | cons _ _ => simp at h
  | cons a0 as ih =>
    cases b with
    | nil => simp at h
    | cons b0 bs =>
      simp only [List.length_cons, Nat.succ.injEq] at h
      simp [List.zip_cons_cons, ih bs h]

theorem flattenOne_snoc (s : String) (si : SeqIndex) (i j : Nat) (x : Int) (y : Nat)
    (h : si.start.length = si.pos.length) :
    flattenOne s ⟨si.start ++ [(i, x)], si.pos ++ [(j, y)]⟩ =
      flattenOne s si ++ [(s, x, y)] := by
  simp only [flattenOne]
  rw [zip_snoc _ _ _ _ h]
  simp

end Pygff

namespace Pygff

/-! Characterisation of `recOf?` and equation lemmas for `genStep`. -/

theorem recOf?_eq_some {l : Line} {s : String} {st0 : Int}
    (h : recOf? l = some (s, st0)) :
    ¬(startsHash l = true ∨ l = "") ∧ parseSeqStart l = .ok (s, st0) := by
  by_cases hc : startsHash l = true ∨ l = ""
  · rw [recOf?, if_pos hc] at h
    exact absurd h (by simp)
  · rw [recOf?, if_neg hc] at h
    refine ⟨hc, ?_⟩
    cases hp : parseSeqStart l with
    | error e => rw [hp] at h; simp [Except.toOption] at h
    | ok v =>
      rw [hp] at h
      simp only [Except.toOption] at h
      cases Option.some.inj h
      rfl

theorem recOf?_eq_none_cases {l : Line} (h : recOf? l = none) :
    (startsHash l = true ∨ l = "") ∨ ∃ e, parseSeqStart l = .error e := by
  by_cases hc : startsHash l = true ∨ l = ""
  · exact Or.inl hc
  · rw [recOf?, if_neg hc] at h
    cases hp : parseSeqStart l with
    | error e => exact Or.inr ⟨e, rfl⟩
    | ok v => rw [hp] at h; simp [Except.toOption] at h

theorem genStep_skip {th : List (String × Int)} {st : GenState} {l : Line}
    (h : startsHash l = true ∨ l = "") :
    genStep th st l = .ok { st with currPos := st.currPos + l.length } := by
  rw [genStep, if_pos h]

theorem genStep_parseErr {th : List (String × Int)} {st : GenState} {l : Line}
    {e : GenErr} (h : ¬(startsHash l = true ∨ l = ""))
    (hp : parseSeqStart l = .error e) : genStep th st l = .error e := by
  rw [genStep, if_neg h]
  simp only [hp]

theorem genStep_keyErr {th : List (String × Int)} {st : GenState} {l : Line}
    {s : String} {st0 : Int} (h : ¬(startsHash l = true ∨ l = ""))
    (hp : parseSeqStart l = .ok (s, st0)) (hidx : alookup st.index s = none)
    (hth : alookup th s = none) : genStep th st l = .error .keyError := by
  rw [genStep, if_neg h]
  simp only [hp, hidx, hth, Option.isNone_none, if_pos, Option.map_none']

theorem genStep_new {th : List (String × Int)} {st : GenState} {l : Line}
    {s : String} {st0 : Int} {t : Int} (h : ¬(startsHash l = true ∨ l = ""))
    (hp : parseSeqStart l = .ok (s, st0)) (hidx : alookup st.index s = none)
    (hth : alookup th s = some t) :
    genStep th st l = .ok ⟨st.index ++ [(s, ⟨[(0, st0)], [(0, st.currPos)]⟩)],
      st.currPos + l.length, 1, some t, some st0⟩ := by
  rw [genStep, if_neg h]
  simp only [hp, hidx, hth, Option.isNone_none, if_pos, Option.map_some']
  simp only [emitTest]
  rw [odSetdefault_absent _ _ _ hidx, odModify_last _ _ _ _ hidx]
  rfl

theorem genStep_known_emit {th : List (String × Int)} {st : GenState} {l : Line}
    {s : String} {st0 : Int} {si : SeqIndex} {p t : Int}
    (h : ¬(startsHash l = true ∨ l = "")) (hp : parseSeqStart l = .ok (s, st0))
    (hidx : alookup st.index s = some si) (hprev : st.prevStart = some p)
    (hthr : st.currThreshold = some t) (hcmp : st0 - p > t) :
    genStep th st l = .ok ⟨odModify st.index s (fun si2 =>
        ⟨odSetdefault si2.start st.currIdx st0, odSetdefault si2.pos st.currIdx st.currPos⟩),
      st.currPos + l.length, st.currIdx + 1, st.currThreshold, some st0⟩ := by
  rw [genStep, if_neg h]
  simp only [hp, hidx, Option.isSome_some, Option.isNone_some, Bool.false_eq_true,
    if_false, if_true, hprev, hthr, emitTest, hcmp, decide_True]
  rw [odSetdefault_present _ _ _ (by rw [hidx]; rfl)]

theorem genStep_known_skip {th : List (String × Int)} {st : GenState} {l : Line}
    {s : String} {st0 : Int} {si : SeqIndex} {p t : Int}
    (h : ¬(startsHash l = true ∨ l = "")) (hp : parseSeqStart l = .ok (s, st0))
    (hidx : alookup st.index s = some si) (hprev : st.prevStart = some p)
    (hthr : st.currThreshold = some t) (hcmp : ¬ st0 - p > t) :
    genStep th st l = .ok { st with currPos := st.currPos + l.length } := by
  rw [genStep, if_neg h]
  simp only [hp, hidx, Option.isSome_some, Option.isNone_some, Bool.false_eq_true,
    if_false, if_true, hprev, hthr, emitTest, hcmp, decide_False]

end Pygff

namespace Pygff

theorem recList_cons_none {l : Line} {ls : List Line} (h : recOf? l = none) :
    recList (l :: ls) = recList ls := by
  simp [recList, List.filterMap_cons, h]

theorem recList_cons_some {l : Line} {ls : List Line} {s : String} {st0 : Int}
    (h : recOf? l = some (s, st0)) :
    recList (l :: ls) = (s, st0) :: recList ls := by
  simp [recList, List.filterMap_cons, h]

theorem alookup_append_some {κ α : Type} [DecidableEq κ] (l1 l2 : List (κ × α))
    (k : κ) (v : α) (h : alookup l1 k = some v) : alookup (l1 ++ l2) k = some v := by
  induction l1 with
  | nil => simp [alookup] at h
  | cons kv rest ih =>
    by_cases hk : kv.1 = k
    · rw [alookup, if_pos hk] at h
      rw [List.cons_append, alookup, if_pos hk]
      exact h
    · rw [alookup, if_neg hk] at h
      rw [List.cons_append, alookup, if_neg hk]
      exact ih h

/-- Coherence between the `_gen_index` loop state and the spec walker's
cursor: the running prev-start/threshold/local-index state describes the
cursor's seqid, that seqid's slot is the most recently inserted one, and no
upcoming seqid other than the cursor's is in the index yet. -/
def Coh (th : List (String × Int)) (st : GenState) :
    Option (String × Int) → List Line → Prop
  | none, _ => st.index = [] ∧ st.prevStart = none
  | some c, lines =>
      st.prevStart = some c.2 ∧
      alookup th c.1 = st.currThreshold ∧ st.currThreshold.isSome = true ∧
      (∃ pre si, st.index = pre ++ [(c.1, si)] ∧ alookup pre c.1 = none ∧
        st.currIdx = si.start.length ∧ st.currIdx = si.pos.length) ∧
      (∀ s2 ∈ upSeqids lines, s2 ≠ c.1 → alookup st.index s2 = none)

/-- Main correspondence: a successful `_gen_index` pass starting from a
coherent state extends the flattened index by exactly the spec rule's
emissions, and keeps the index well-formed. -/
theorem genFold_main (th : List (String × Int)) :
    ∀ (lines : List Line) (st : GenState) (cur : Option (String × Int)) (out : GenState),
      Coh th st cur lines → structOK st.index →
      groupedFrom (cur.map (·.1)) lines = true →
      genFoldGo th st lines = .ok out →
      indexFlatten out.index = indexFlatten st.index ++ specEmitGo th cur st.currPos lines
        ∧ structOK out.index := by
  intro lines
  induction lines with
  | nil =>
    intro st cur out hcoh hstr hg hfold
    rw [genFoldGo] at hfold
    cases Except.ok.inj hfold
    exact ⟨by simp [specEmitGo], hstr⟩
  | cons l ls ih =>
    intro st cur out hcoh hstr hg hfold
    rw [genFoldGo] at hfold
    cases hstep : genStep th st l with
    | error e => rw [hstep] at hfold; exact absurd hfold (by simp)
    | ok st2 =>
      rw [hstep] at hfold
      cases hro : recOf? l with
      | none =>
        -- comment/blank line (a parse failure would have aborted the run)
        by_cases hsk : startsHash l = true ∨ l = ""
        · rw [genStep_skip hsk] at hstep
          have hst2 : st2 = { st with currPos := st.currPos + l.length } :=
            (Except.ok.inj hstep).symm
          subst hst2
          have hcoh2 : Coh th { st with currPos := st.currPos + l.length } cur ls := by
            cases cur with
            | none => exact hcoh
            | some c =>
              obtain ⟨h1, h2, h3, h4, h5⟩ := hcoh
              refine ⟨h1, h2, h3, h4, ?_⟩
              intro s2 hs2 hne
              exact h5 s2 (by rw [upSeqids, recList_cons_none hro]; exact hs2) hne
          have hg2 : groupedFrom (cur.map (·.1)) ls = true := by
            rw [groupedFrom, hro] at hg
            exact hg
          have := ih _ cur out hcoh2 hstr hg2 hfold
          rw [this.1]
          refine ⟨?_, this.2⟩
          simp only [specEmitGo, hro]
        · rw [recOf?, if_neg hsk] at hro
          cases hpp : parseSeqStart l with
          | error e =>
            rw [genStep_parseErr hsk hpp] at hstep
            exact absurd hstep (by simp)
          | ok v =>
            rw [hpp] at hro
            simp [Except.toOption] at hro
      | some r =>
        obtain ⟨s2, st0⟩ := r
        obtain ⟨hsk, hp⟩ := recOf?_eq_some hro
        cases cur with
        | none =>
          obtain ⟨hidx0, hprev0⟩ := hcoh
          have hlook : alookup st.index s2 = none := by rw [hidx0]; rfl
          cases hth : alookup th s2 with
          | none =>
            rw [genStep_keyErr hsk hp hlook hth] at hstep
            exact absurd hstep (by simp)
          | some t =>
            rw [genStep_new hsk hp hlook hth] at hstep
            have hst2 : st2 = ⟨st.index ++ [(s2, ⟨[(0, st0)], [(0, st.currPos)]⟩)],
                st.currPos + l.length, 1, some t, some st0⟩ := (Except.ok.inj hstep).symm
            subst hst2
            have hg2 : groupedFrom (some s2) ls = true := by
              rw [groupedFrom, hro] at hg
              exact hg
            have hcoh2 : Coh th ⟨st.index ++ [(s2, ⟨[(0, st0)], [(0, st.currPos)]⟩)],
                st.currPos + l.length, 1, some t, some st0⟩ (some (s2, st0)) ls := by
              refine ⟨rfl, by rw [hth], rfl, ⟨st.index, _, rfl, by rw [hidx0]; rfl, rfl, rfl⟩, ?_⟩
              intro s3 hs3 hne
              rw [hidx0]
              simp only [List.nil_append, alookup]
              rw [if_neg (fun hh => hne hh.symm)]
            have hstr2 : structOK (st.index ++ [(s2, ⟨[(0, st0)], [(0, st.currPos)]⟩)]) := by
              rw [hidx0]
              constructor
              · simp
              · intro kv hkv
                simp only [List.nil_append, List.mem_singleton] at hkv
                subst hkv
                exact ⟨rfl, rfl, rfl, by simp⟩
            have := ih _ (some (s2, st0)) out hcoh2 hstr2 hg2 hfold
            rw [this.1]
            refine ⟨?_, this.2⟩
            rw [hidx0]
            simp only [specEmitGo, hro, List.nil_append]
            rw [if_pos (specEmitTest_none th s2 st0)]
            rfl
        | some c =>
          obtain ⟨c1, p⟩ := c
          obtain ⟨hprev, hthc, hthsome, ⟨pre, si, hix, hpre, hlen1, hlen2⟩, hup⟩ := hcoh
          obtain ⟨t, ht⟩ := Option.isSome_iff_exists.mp hthsome
          by_cases hsame : s2 = c1
          · -- a further record of the current block
            subst hsame
            have hlook : alookup st.index s2 = some si := by
              rw [hix, alookup_append_of_none _ _ _ hpre]
              simp [alookup]
            have hthc' : alookup th s2 = some t := by rw [hthc, ht]
            have hg2 : groupedFrom (some s2) ls = true := by
              simpa [groupedFrom, hro] using hg
            have hmem_si : (s2, si) ∈ st.index := by
              rw [hix]
              exact List.mem_append_right _ (List.mem_singleton.mpr rfl)
            have hsiOK : siOK si := hstr.2 (s2, si) hmem_si
            obtain ⟨hk1, hk2, hlen12, hne0⟩ := hsiOK
            have habs1 : alookup si.start st.currIdx = none := by
              rw [alookup_eq_none_iff]
              intro kv hkv
              have hmm : kv.1 ∈ si.start.map (·.1) := List.mem_map_of_mem _ hkv
              rw [hk1] at hmm
              have := List.mem_range.mp hmm
              omega
            have habs2 : alookup si.pos st.currIdx = none := by
              rw [alookup_eq_none_iff]
              intro kv hkv
              have hmm : kv.1 ∈ si.pos.map (·.1) := List.mem_map_of_mem _ hkv
              rw [hk2] at hmm
              have := List.mem_range.mp hmm
              omega
            by_cases hcmp : st0 - p > t
            · -- emitted: the running gap exceeded the threshold
              rw [genStep_known_emit hsk hp hlook hprev ht hcmp] at hstep
              have hst2 := (Except.ok.inj hstep).symm
              subst hst2
              have hidx2 : odModify st.index s2 (fun si2 =>
                  ⟨odSetdefault si2.start st.currIdx st0,
                   odSetdefault si2.pos st.currIdx st.currPos⟩) =
                  pre ++ [(s2, ⟨si.start ++ [(st.currIdx, st0)],
                    si.pos ++ [(st.currIdx, st.currPos)]⟩)] := by
                rw [hix, odModify_last _ _ _ _ hpre,
                  odSetdefault_absent _ _ _ habs1, odSetdefault_absent _ _ _ habs2]
              have hcoh2 : Coh th ⟨odModify st.index s2 (fun si2 =>
                  ⟨odSetdefault si2.start st.currIdx st0,
                   odSetdefault si2.pos st.currIdx st.currPos⟩),
                  st.currPos + l.length, st.currIdx + 1, st.currThreshold, some st0⟩
                  (some (s2, st0)) ls := by
                refine ⟨rfl, by rw [hthc], hthsome, ?_, ?_⟩
                · refine ⟨pre, _, hidx2, hpre, ?_, ?_⟩
                  · simp [hlen1]
                  · simp [hlen2]
                · intro s3 hs3 hne
                  have hm : s3 ∈ upSeqids (l :: ls) := by
                    rw [upSeqids, recList_cons_some hro]
                    exact List.mem_cons_of_mem _ hs3
                  exact (alookup_odModify_ne st.index s2 s3
                    (fun si2 => ⟨odSetdefault si2.start st.currIdx st0,
                      odSetdefault si2.pos st.currIdx st.currPos⟩) hne).trans (hup s3 hm hne)
              have hstr2 : structOK (odModify st.index s2 (fun si2 =>
                  ⟨odSetdefault si2.start st.currIdx st0,
                   odSetdefault si2.pos st.currIdx st.currPos⟩)) := by
                constructor
                · rw [odModify_keys]
                  exact hstr.1
                · rw [hidx2]
                  intro kv hkv
                  rcases List.mem_append.mp hkv with hl | hr
                  · exact hstr.2 kv (by rw [hix]; exact List.mem_append_left _ hl)
                  · rw [List.mem_singleton] at hr
                    subst hr
                    refine ⟨?_, ?_, ?_, by simp⟩
                    · simp only [List.map_append, List.length_append, hk1]
                      rw [hlen1, List.length_singleton, List.range_succ]
                      rfl
                    · simp only [List.map_append, List.length_append, hk2]
                      rw [hlen2, List.length_singleton, List.range_succ]
                      rfl
                    · simp [hlen12]
              have := ih _ (some (s2, st0)) out hcoh2 hstr2 hg2 hfold
              rw [this.1]
              refine ⟨?_, this.2⟩
              have hflat2 : indexFlatten (odModify st.index s2 (fun si2 =>
                  ⟨odSetdefault si2.start st.currIdx st0,
                   odSetdefault si2.pos st.currIdx st.currPos⟩)) =
                  indexFlatten st.index ++ [(s2, st0, st.currPos)] := by
                rw [hidx2, hix, indexFlatten_append, indexFlatten_append]
                have : indexFlatten [(s2, ⟨si.start ++ [(st.currIdx, st0)],
                    si.pos ++ [(st.currIdx, st.currPos)]⟩)] =
                    flattenOne s2 ⟨si.start ++ [(st.currIdx, st0)],
                      si.pos ++ [(st.currIdx, st.currPos)]⟩ := by
                  simp [indexFlatten]
                rw [this, flattenOne_snoc _ _ _ _ _ _ hlen12]
                simp [indexFlatten, List.append_assoc]
              rw [hflat2]
              have htest : specEmitTest th (some (s2, p)) s2 st0 = true := by
                rw [specEmitTest_same th s2 p s2 st0 rfl, hthc']
                simpa using hcmp
              simp only [specEmitGo, hro]
              rw [if_pos htest]
              simp
            · -- not emitted: the offset still advances
              rw [genStep_known_skip hsk hp hlook hprev ht hcmp] at hstep
              have hst2 := (Except.ok.inj hstep).symm
              subst hst2
              have hcoh2 : Coh th { st with currPos := st.currPos + l.length }
                  (some (s2, p)) ls := by
                refine ⟨hprev, hthc, hthsome, ⟨pre, si, hix, hpre, hlen1, hlen2⟩, ?_⟩
                intro s3 hs3 hne
                refine hup s3 ?_ hne
                rw [upSeqids, recList_cons_some hro]
                exact List.mem_cons_of_mem _ hs3
              have hg2 : groupedFrom (some s2) ls = true := by
                simpa [groupedFrom, hro] using hg
              have := ih _ (some (s2, p)) out hcoh2 hstr hg2 hfold
              rw [this.1]
              refine ⟨?_, this.2⟩
              have htest : specEmitTest th (some (s2, p)) s2 st0 = false := by
                rw [specEmitTest_same th s2 p s2 st0 rfl, hthc']
                simpa using hcmp
              simp only [specEmitGo, hro, htest, Bool.false_eq_true, if_false]
          · -- first record of a fresh block: always emitted
            have hs2mem : s2 ∈ upSeqids (l :: ls) := by
              rw [upSeqids, recList_cons_some hro]
              exact List.mem_cons_self _ _
            have hlook : alookup st.index s2 = none := hup s2 hs2mem hsame
            rw [groupedFrom, hro] at hg
            simp only [Option.map_some'] at hg
            rw [if_neg hsame] at hg
            obtain ⟨hnotc, hg2⟩ := Bool.and_eq_true_iff.mp hg
            have hc1notin : c1 ∉ upSeqids ls := by simpa using hnotc
            cases hth2 : alookup th s2 with
            | none =>
              rw [genStep_keyErr hsk hp hlook hth2] at hstep
              exact absurd hstep (by simp)
            | some t2 =>
              rw [genStep_new hsk hp hlook hth2] at hstep
              have hst2 := (Except.ok.inj hstep).symm
              subst hst2
              have hcoh2 : Coh th ⟨st.index ++ [(s2, ⟨[(0, st0)], [(0, st.currPos)]⟩)],
                  st.currPos + l.length, 1, some t2, some st0⟩ (some (s2, st0)) ls := by
                refine ⟨rfl, by rw [hth2], rfl,
                  ⟨st.index, _, rfl, hlook, rfl, rfl⟩, ?_⟩
                intro s3 hs3 hne
                have hs3c1 : s3 ≠ c1 := fun habs => hc1notin (habs ▸ hs3)
                have : alookup st.index s3 = none := by
                  refine hup s3 ?_ hs3c1
                  rw [upSeqids, recList_cons_some hro]
                  exact List.mem_cons_of_mem _ hs3
                rw [alookup_append_of_none _ _ _ this]
                simp only [alookup]
                rw [if_neg (fun hh => hne hh.symm)]
              have hs2notkey : s2 ∉ st.index.map (·.1) := by
                intro habs
                obtain ⟨kv, hkv, hkveq⟩ := List.mem_map.mp habs
                exact ((alookup_eq_none_iff _ _).mp hlook kv hkv) hkveq
              have hstr2 : structOK (st.index ++ [(s2, ⟨[(0, st0)], [(0, st.currPos)]⟩)]) := by
                constructor
                · rw [List.map_append]
                  rw [List.nodup_append]
                  refine ⟨hstr.1, by simp, ?_⟩
                  intro a ha hb
                  simp only [List.map_cons, List.map_nil, List.mem_singleton] at hb
                  exact hs2notkey (hb ▸ ha)
                · intro kv hkv
                  rcases List.mem_append.mp hkv with hl | hr
                  · exact hstr.2 kv hl
                  · rw [List.mem_singleton] at hr
                    subst hr
                    exact ⟨rfl, rfl, rfl, by simp⟩
              have := ih _ (some (s2, st0)) out hcoh2 hstr2 hg2 hfold
              rw [this.1]
              refine ⟨?_, this.2⟩
              rw [indexFlatten_append]
              have htest : specEmitTest th (some (c1, p)) s2 st0 = true :=
                specEmitTest_diff th c1 p s2 st0 (fun hh => hsame hh.symm)
              simp only [specEmitGo, hro]
              rw [if_pos htest]
              have : indexFlatten [(s2, ⟨[(0, st0)], [(0, st.currPos)]⟩)] =
                  [(s2, st0, st.currPos)] := by
                simp [indexFlatten, flattenOne]
              rw [this]
              simp

end Pygff

namespace Pygff

/-- C2: the emission rule of the sparse-index pass.  For a grouped file, a
successful `_gen_index` pass produces exactly the entries selected by the
spec's rule — an entry `(seqid, start, byte offset)` appears iff the record
is the first of its seqid in the pass (previous-start is none) or its start
exceeds the previously emitted start by more than that seqid's threshold —
and every line, emitted or skipped, advances the running byte offset by its
length (`specEmitGo` adds `l.length` for comments, blanks and skipped
records alike, so the recorded `pos` values are cumulative line lengths). -/
theorem C2_emission (th : List (String × Int)) (lines : List Line) (out : GenState)
    (hg : groupedFrom none lines = true)
    (hfold : genFoldGo th initGenState lines = .ok out) :
    indexFlatten out.index = specEmitGo th none 0 lines := by
  have h := genFold_main th lines initGenState none out ⟨rfl, rfl⟩
    ⟨by simp [initGenState], by intro kv hkv; simp [initGenState] at hkv⟩ hg hfold
  simpa [indexFlatten, initGenState] using h.1

/-- The state produced by running the indexing fold on `c6File` with an
explicit threshold table (threshold 15 for `chr1` skips the start-20
record). -/
def c2wTh : List (String × Int) := [("chr1", 15), ("chr2", 0)]

def c2wOut : GenState :=
  match genFoldGo c2wTh initGenState c6File with
  | .ok st => st
  | .error _ => initGenState

/-- Witness for C2: on `c6File` with thresholds `chr1 ↦ 15`, `chr2 ↦ 0`,
the flattened index equals the spec rule's emissions — the start-20 record
(gap 10 ≤ 15) is skipped, yet the start-30 record's offset 74 still counts
the skipped line's bytes. -/
theorem C2_emission_witness :
    indexFlatten c2wOut.index = specEmitGo c2wTh none 0 c6File ∧
    specEmitGo c2wTh none 0 c6File =
      [("chr1", 10, 16), ("chr1", 30, 74), ("chr1", 1000, 103), ("chr2", 5, 136)] :=
  ⟨C2_emission c2wTh c6File c2wOut (by decide) (by decide), by decide⟩

/-! ## Spec-side facts used for the index invariants (C3) -/

/-- A nonempty Python line has positive length. -/
theorem str_length_pos {l : Line} (h : l ≠ "") : 0 < l.length := by
  cases l with
  | mk data =>
    cases data with
    | nil => exact absurd rfl h
    | cons c cs => simp [String.length]

theorem recOf?_ne_empty {l : Line} {s : String} {st0 : Int}
    (h : recOf? l = some (s, st0)) : l ≠ "" :=
  fun habs => (recOf?_eq_some h).1 (Or.inr habs)

/-- Every emission's seqid is the seqid of some upcoming record. -/
theorem specEmit_seqids (th : List (String × Int)) :
    ∀ (lines : List Line) (cur : Option (String × Int)) (pos : Nat) e,
      e ∈ specEmitGo th cur pos lines → e.1 ∈ upSeqids lines := by
  intro lines
  induction lines with
  | nil => intro cur pos e he; simp [specEmitGo] at he
  | cons l ls ih =>
    intro cur pos e he
    cases hro : recOf? l with
    | none =>
      simp only [specEmitGo, hro] at he
      rw [upSeqids, recList_cons_none hro]
      exact ih cur (pos + l.length) e he
    | some r =>
      obtain ⟨s2, st0⟩ := r
      simp only [specEmitGo, hro] at he
      rw [upSeqids, recList_cons_some hro]
      split at he
      · rcases List.mem_cons.mp he with h | h
        · subst h; exact List.mem_cons_self _ _
        · exact List.mem_cons_of_mem _ (ih _ (pos + l.length) e h)
      · exact List.mem_cons_of_mem _ (ih cur (pos + l.length) e he)

/-- The emitted byte offsets are strictly increasing, and all of them are
at least the running offset. -/
theorem specEmit_pos (th : List (String × Int)) :
    ∀ (lines : List Line) (cur : Option (String × Int)) (pos : Nat),
      List.Pairwise (fun a b => a.2.2 < b.2.2) (specEmitGo th cur pos lines) ∧
      ∀ e ∈ specEmitGo th cur pos lines, pos ≤ e.2.2 := by
  intro lines
  induction lines with
  | nil => intro cur pos; simp [specEmitGo]
  | cons l ls ih =>
    intro cur pos
    cases hro : recOf? l with
    | none =>
      simp only [specEmitGo, hro]
      refine ⟨(ih cur (pos + l.length)).1, ?_⟩
      intro e he
      exact le_trans (Nat.le_add_right _ _) ((ih cur (pos + l.length)).2 e he)
    | some r =>
      obtain ⟨s2, st0⟩ := r
      have hlpos : 0 < l.length := str_length_pos (recOf?_ne_empty hro)
      simp only [specEmitGo, hro]
      split
      · constructor
        · rw [List.pairwise_cons]
          refine ⟨?_, (ih _ (pos + l.length)).1⟩
          intro e he
          have := (ih _ (pos + l.length)).2 e he
          show pos < e.2.2
          omega
        · intro e he
          rcases List.mem_cons.mp he with h | h
          · subst h; exact le_refl _
          · have := (ih _ (pos + l.length)).2 e h
            omega
      · refine ⟨(ih cur (pos + l.length)).1, ?_⟩
        intro e he
        have := (ih cur (pos + l.length)).2 e he
        omega

/-- With nonnegative thresholds and a grouped file, the emitted starts of
any one seqid are strictly increasing, and (within the current block) all
exceed the previously emitted start. -/
theorem specEmit_start (th : List (String × Int)) (hth : ∀ kv ∈ th, (0 : Int) ≤ kv.2) :
    ∀ (lines : List Line) (cur : Option (String × Int)) (pos : Nat) (s : String),
      groupedFrom (cur.map (·.1)) lines = true →
      (List.Pairwise (fun a b => a.2.1 < b.2.1)
        ((specEmitGo th cur pos lines).filter (fun e => e.1 == s)) ∧
      ∀ p0, cur = some (s, p0) →
        ∀ e ∈ (specEmitGo th cur pos lines).filter (fun e => e.1 == s), p0 < e.2.1) := by
  have hthv : ∀ s2, (0 : Int) ≤ (alookup th s2).getD 0 := by
    intro s2
    cases hh : alookup th s2 with
    | none => simp
    | some v => simpa using hth (s2, v) (alookup_mem _ _ _ hh)
  intro lines
  induction lines with
  | nil => intro cur pos s _; simp [specEmitGo]
  | cons l ls ih =>
    intro cur pos s hg
    cases hro : recOf? l with
    | none =>
      simp only [specEmitGo, hro]
      rw [groupedFrom, hro] at hg
      exact ih cur (pos + l.length) s hg
    | some r =>
      obtain ⟨s2, st0⟩ := r
      simp only [specEmitGo, hro]
      rw [groupedFrom, hro] at hg
      cases cur with
      | none =>
        simp only [Option.map_none'] at hg
        rw [if_pos (specEmitTest_none th s2 st0)]
        have IH := ih (some (s2, st0)) (pos + l.length) s (by simpa using hg)
        constructor
        · by_cases hs : s2 = s
          · subst hs
            rw [List.filter_cons_of_pos (by simp), List.pairwise_cons]
            refine ⟨fun e he => IH.2 st0 rfl e he, IH.1⟩
          · rw [List.filter_cons_of_neg (by simpa using hs)]
            exact IH.1
        · intro p0 hcur
          exact absurd hcur (by simp)
      | some c =>
        obtain ⟨c1, p⟩ := c
        simp only [Option.map_some'] at hg
        by_cases hsame : s2 = c1
        · subst hsame
          rw [if_pos rfl] at hg
          by_cases hcmp : st0 - p > (alookup th s2).getD 0
          · rw [if_pos (show specEmitTest th (some (s2, p)) s2 st0 = true by
              rw [specEmitTest_same th s2 p s2 st0 rfl]
              exact decide_eq_true hcmp)]
            have IH := ih (some (s2, st0)) (pos + l.length) s (by simpa using hg)
            constructor
            · by_cases hs : s2 = s
              · subst hs
                rw [List.filter_cons_of_pos (by simp), List.pairwise_cons]
                refine ⟨fun e he => IH.2 st0 rfl e he, IH.1⟩
              · rw [List.filter_cons_of_neg (by simpa using hs)]
                exact IH.1
            · intro p0 hcur
              obtain ⟨h1, h2⟩ : s2 = s ∧ p = p0 := by
                have := Option.some.inj hcur
                exact ⟨congrArg Prod.fst this, congrArg Prod.snd this⟩
              subst h1
              have hp0 : p0 < st0 := by
                have := hthv s2
                omega
              rw [List.filter_cons_of_pos (by simp)]
              intro e he
              rcases List.mem_cons.mp he with h | h
              · subst h; exact hp0
              · exact lt_trans hp0 (IH.2 st0 rfl e h)
          · rw [if_neg (show ¬ specEmitTest th (some (s2, p)) s2 st0 = true by
              rw [specEmitTest_same th s2 p s2 st0 rfl]
              simpa using hcmp)]
            have IH := ih (some (s2, p)) (pos + l.length) s (by simpa using hg)
            exact ⟨IH.1, fun p0 hcur e he => IH.2 p0 hcur e he⟩
        · rw [if_neg hsame] at hg
          obtain ⟨hnotc, hg2⟩ := Bool.and_eq_true_iff.mp hg
          have hc1notin : c1 ∉ upSeqids ls := by simpa using hnotc
          rw [if_pos (specEmitTest_diff th c1 p s2 st0 (fun hh => hsame hh.symm))]
          have IH := ih (some (s2, st0)) (pos + l.length) s (by simpa using hg2)
          constructor
          · by_cases hs : s2 = s
            · subst hs
              rw [List.filter_cons_of_pos (by simp), List.pairwise_cons]
              refine ⟨fun e he => IH.2 st0 rfl e he, IH.1⟩
            · rw [List.filter_cons_of_neg (by simpa using hs)]
              exact IH.1
          · intro p0 hcur
            obtain ⟨h1, h2⟩ : c1 = s ∧ p = p0 := by
              have := Option.some.inj hcur
              exact ⟨congrArg Prod.fst this, congrArg Prod.snd this⟩
            subst h1
            rw [List.filter_cons_of_neg (by simpa using hsame)]
            intro e he
            exfalso
            have hmem := List.mem_of_mem_filter he
            have := specEmit_seqids th ls (some (s2, st0)) (pos + l.length) e hmem
            have heq : e.1 = c1 := by simpa using (List.mem_filter.mp he).2
            exact hc1notin (heq ▸ this)

end Pygff

namespace Pygff

/-- The first record of a seqid, with its byte offset (every line before it
advances the offset by its length). -/
def firstRecAux (s : String) (pos : Nat) : List Line → Option (Int × Nat)
  | [] => none
  | l :: ls =>
    match recOf? l with
    | some r => if r.1 = s then some (r.2, pos) else firstRecAux s (pos + l.length) ls
    | none => firstRecAux s (pos + l.length) ls

def firstRecordOf (lines : List Line) (s : String) : Option (Int × Nat) :=
  firstRecAux s 0 lines

/-- Consecutive records of equal seqid have nondecreasing starts. -/
def sortedRecsB : List (String × Int) → Bool
  | [] => true
  | [_] => true
  | a :: b :: rest => (!(a.1 == b.1) || decide (a.2 ≤ b.2)) && sortedRecsB (b :: rest)

/-- Records of one seqid appear in the file sorted by ascending start. -/
def sortedPerSeqid (lines : List Line) : Prop :=
  sortedRecsB (recList lines) = true

/-- The first emission of a seqid not currently in a block is exactly its
first record, at that record's byte offset. -/
theorem specEmit_first (th : List (String × Int)) :
    ∀ (lines : List Line) (cur : Option (String × Int)) (pos : Nat) (s : String),
      (∀ c1 p, cur = some (c1, p) → c1 ≠ s) →
      ((specEmitGo th cur pos lines).filter (fun e => e.1 == s)).head? =
        (firstRecAux s pos lines).map (fun q => (s, q.1, q.2)) := by
  intro lines
  induction lines with
  | nil => intro cur pos s _; simp [specEmitGo, firstRecAux]
  | cons l ls ih =>
    intro cur pos s hcur
    cases hro : recOf? l with
    | none =>
      simp only [specEmitGo, firstRecAux, hro]
      exact ih cur (pos + l.length) s hcur
    | some r =>
      obtain ⟨s2, st0⟩ := r
      simp only [specEmitGo, firstRecAux, hro]
      by_cases hs : s2 = s
      · subst hs
        have htest : specEmitTest th cur s2 st0 = true := by
          cases cur with
          | none => exact specEmitTest_none th s2 st0
          | some c =>
            obtain ⟨c1, p⟩ := c
            exact specEmitTest_diff th c1 p s2 st0 (hcur c1 p rfl)
        rw [if_pos htest, if_pos rfl]
        rw [List.filter_cons_of_pos (by simp)]
        simp
      · rw [if_neg hs]
        by_cases htest : specEmitTest th cur s2 st0 = true
        · rw [if_pos htest]
          rw [List.filter_cons_of_neg (by simpa using hs)]
          exact ih (some (s2, st0)) (pos + l.length) s
            (by intro c1 p hc; cases Option.some.inj hc; exact hs)
        · rw [if_neg htest]
          exact ih cur (pos + l.length) s hcur

/-- Every flattened triple's seqid is a key of the index. -/
theorem flatten_keys (idx : Index) (e : String × Int × Nat)
    (he : e ∈ indexFlatten idx) : e.1 ∈ idx.map (·.1) := by
  unfold indexFlatten at he
  obtain ⟨kv, hkv, hm⟩ := List.mem_flatMap.mp he
  obtain ⟨p, _, hp⟩ := List.mem_map.mp hm
  rw [← hp]
  exact List.mem_map_of_mem _ hkv

/-- With distinct keys, filtering the flattened index for one seqid gives
exactly that seqid's slot. -/
theorem flatten_filter (idx : Index) (s : String) (hnd : (idx.map (·.1)).Nodup)
    (si : SeqIndex) (h : alookup idx s = some si) :
    (indexFlatten idx).filter (fun e => e.1 == s) = flattenOne s si := by
  induction idx with
  | nil => simp [alookup] at h
  | cons kv rest ih =>
    have hnd' : kv.1 ∉ rest.map (·.1) ∧ (rest.map (·.1)).Nodup := by
      rw [List.map_cons] at hnd
      exact List.nodup_cons.mp hnd
    have hnd1 : (rest.map (·.1)).Nodup := hnd'.2
    have hflat : indexFlatten (kv :: rest) = flattenOne kv.1 kv.2 ++ indexFlatten rest := by
      simp [indexFlatten]
    rw [hflat, List.filter_append]
    by_cases hk : kv.1 = s
    · rw [alookup, if_pos hk] at h
      have hsi : kv.2 = si := Option.some.inj h
      have h1 : (flattenOne kv.1 kv.2).filter (fun e => e.1 == s) = flattenOne kv.1 kv.2 := by
        rw [List.filter_eq_self]
        intro e he
        obtain ⟨p, _, hp⟩ := List.mem_map.mp he
        rw [← hp]
        simp [hk]
      have hs_not : s ∉ rest.map (·.1) := hk ▸ hnd'.1
      have h2 : (indexFlatten rest).filter (fun e => e.1 == s) = [] := by
        rw [List.filter_eq_nil_iff]
        intro e he
        intro habs
        have : e.1 ∈ rest.map (·.1) := flatten_keys rest e he
        rw [show e.1 = s from by simpa using habs] at this
        exact hs_not this
      rw [h1, h2, List.append_nil, hk, hsi]
    · rw [alookup, if_neg hk] at h
      have h1 : (flattenOne kv.1 kv.2).filter (fun e => e.1 == s) = [] := by
        rw [List.filter_eq_nil_iff]
        intro e he
        intro habs
        obtain ⟨p, _, hp⟩ := List.mem_map.mp he
        rw [← hp] at habs
        exact hk (by simpa using habs)
      rw [h1, List.nil_append]
      exact ih hnd1 h

/-! Threshold values on the open path are all zero. -/

theorem osAdd_nonempty (acc : List (String × List Int)) (s : String) (v : Int)
    (h : ∀ kv ∈ acc, kv.2 ≠ []) : ∀ kv ∈ osAdd acc s v, kv.2 ≠ [] := by
  intro kv hkv
  unfold osAdd at hkv
  split at hkv
  · rcases List.mem_append.mp hkv with h1 | h2
    · exact h kv h1
    · rw [List.mem_singleton] at h2
      subst h2
      simp
  · split at hkv
    · exact h kv hkv
    · obtain ⟨kv0, hkv0, heq⟩ := List.mem_map.mp hkv
      by_cases hk : kv0.1 = s
      · rw [if_pos hk] at heq
        rw [← heq]
        simp
      · rw [if_neg hk] at heq
        rw [← heq]
        exact h kv0 hkv0

theorem pass1_vals_nonempty :
    ∀ (lines : List Line) (acc out : List (String × List Int)),
      (∀ kv ∈ acc, kv.2 ≠ []) → pass1Go acc lines = .ok out →
      ∀ kv ∈ out, kv.2 ≠ [] := by
  intro lines
  induction lines with
  | nil =>
    intro acc out hacc h
    rw [pass1Go] at h
    cases Except.ok.inj h
    exact hacc
  | cons l ls ih =>
    intro acc out hacc h
    rw [pass1Go] at h
    by_cases hc : l = "" ∨ startsHash l = true
    · rw [if_pos hc] at h
      exact ih acc out hacc h
    · rw [if_neg hc] at h
      cases hp : parseSeqStart l with
      | error e => rw [hp] at h; exact absurd h (by simp)
      | ok v =>
        rw [hp] at h
        exact ih _ out (osAdd_nonempty acc v.1 v.2 hacc) h

theorem zipWith_sub_self (xs : List Int) :
    List.zipWith (fun a b => a - b) xs xs = List.replicate xs.length 0 := by
  induction xs with
  | nil => rfl
  | cons x rest ih => simp [List.zipWith, ih, List.replicate]

theorem pandasThresh_zero (xs : List Int) (h : xs ≠ []) : pandasThresh xs 0 = 0 := by
  unfold pandasThresh
  rw [List.drop_zero, zipWith_sub_self]
  rw [if_neg (by simpa [List.length_replicate] using List.length_pos.mpr h |>.ne')]
  simp

theorem averageDiffs_zero (acc : List (String × List Int))
    (h : ∀ kv ∈ acc, kv.2 ≠ []) : ∀ kv ∈ averageDiffs acc 0, kv.2 = 0 := by
  intro kv hkv
  obtain ⟨kv0, hkv0, heq⟩ := List.mem_map.mp hkv
  rw [← heq]
  exact pandasThresh_zero _ (h kv0 hkv0)

/-- Unpacking a successful plain-text `GffFile.__init__`: the session keeps
the lines, and the index is the result of the fold with the thresholds of
the (periods = `int(False)` = 0) first pass. -/
theorem gffInit_extract (lines : List Line) (p : Nat) (g : GffFile)
    (h : gffInit lines false p = .ok g) :
    g.lines = lines ∧ ∃ acc st,
      pass1Go [] lines = .ok acc ∧
      genFoldGo (averageDiffs acc 0) initGenState lines = .ok st ∧
      g.index = st.index := by
  unfold gffInit at h
  cases hv : isVersion3 lines with
  | none => rw [hv] at h; exact absurd h (by simp)
  | some b =>
    cases b with
    | false => rw [hv] at h; exact absurd h (by simp)
    | true =>
      rw [hv] at h
      simp only at h
      unfold genIndexRun getThresholds at h
      simp only [Bool.false_eq_true, false_and, if_false, pyBoolInt] at h
      cases hp1 : pass1Go [] lines with
      | error e => rw [hp1] at h; exact absurd h (by simp)
      | ok acc =>
        rw [hp1] at h
        simp only at h
        cases hf : genFoldGo (averageDiffs acc 0) initGenState lines with
        | error e => rw [hf] at h; exact absurd h (by simp)
        | ok st =>
          rw [hf] at h
          simp only at h
          cases Except.ok.inj h
          exact ⟨rfl, acc, st, rfl, hf, rfl⟩

end Pygff

namespace Pygff

/-- C3: invariants of a completed sparse index.  For any session opened on
a plain file whose records are grouped by seqid and sorted by ascending
start, every seqid slot of the index has strictly increasing `start` values
and strictly increasing `pos` values in local-index order `0, 1, 2, …`, and
the local-index-0 entry is exactly the first record of that seqid in the
file, at that record's byte offset. -/
theorem C3_monotone (lines : List Line) (p : Nat) (g : GffFile)
    (hg : groupedFrom none lines = true)
    (_hsorted : sortedPerSeqid lines)
    (hinit : gffInit lines false p = .ok g) :
    ∀ s si, alookup g.index s = some si →
      List.Pairwise (· < ·) (odValues si.start) ∧
      List.Pairwise (· < ·) (odValues si.pos) ∧
      ∃ st0 p0, si.start.head? = some (0, st0) ∧ si.pos.head? = some (0, p0) ∧
        firstRecordOf lines s = some (st0, p0) := by
  obtain ⟨hlines, acc, stF, hp1, hfold, hidx⟩ := gffInit_extract lines p g hinit
  have hmain := genFold_main (averageDiffs acc 0) lines initGenState none stF
    ⟨rfl, rfl⟩ ⟨by simp [initGenState], by intro kv hkv; simp [initGenState] at hkv⟩ hg hfold
  have hflat : indexFlatten stF.index = specEmitGo (averageDiffs acc 0) none 0 lines := by
    simpa [indexFlatten, initGenState] using hmain.1
  have hstr := hmain.2
  intro s si hsi
  rw [hidx] at hsi
  have hff : (indexFlatten stF.index).filter (fun e => e.1 == s) = flattenOne s si :=
    flatten_filter stF.index s hstr.1 si hsi
  rw [hflat] at hff
  have hsiOK : siOK si := hstr.2 (s, si) (alookup_mem _ _ _ hsi)
  obtain ⟨hk1, hk2, hl12, hne⟩ := hsiOK
  have hnn : ∀ kv ∈ averageDiffs acc 0, (0 : Int) ≤ kv.2 := by
    intro kv hkv
    rw [averageDiffs_zero acc (pass1_vals_nonempty lines [] acc (by simp) hp1) kv hkv]
  have hmapfst : (flattenOne s si).map (fun e => e.2.1) = odValues si.start := by
    unfold flattenOne odValues
    rw [List.map_map]
    calc (si.start.zip si.pos).map ((fun e => e.2.1) ∘ (fun q => (s, q.1.2, q.2.2)))
        = ((si.start.zip si.pos).map Prod.fst).map (fun x => x.2) := by
          rw [List.map_map]; rfl
      _ = si.start.map (fun x => x.2) := by
          rw [List.map_fst_zip _ _ (le_of_eq hl12)]
  have hmapsnd : (flattenOne s si).map (fun e => e.2.2) = odValues si.pos := by
    unfold flattenOne odValues
    rw [List.map_map]
    calc (si.start.zip si.pos).map ((fun e => e.2.2) ∘ (fun q => (s, q.1.2, q.2.2)))
        = ((si.start.zip si.pos).map Prod.snd).map (fun x => x.2) := by
          rw [List.map_map]; rfl
      _ = si.pos.map (fun x => x.2) := by
          rw [List.map_snd_zip _ _ (ge_of_eq hl12)]
  have hstart := (specEmit_start (averageDiffs acc 0) hnn lines none 0 s hg).1
  rw [hff] at hstart
  have hP1 : List.Pairwise (· < ·) (odValues si.start) := by
    rw [← hmapfst]
    exact (List.pairwise_map).mpr hstart
  have hposAll := (specEmit_pos (averageDiffs acc 0) lines none 0).1
  have hposFil : List.Pairwise (fun a b => a.2.2 < b.2.2)
      ((specEmitGo (averageDiffs acc 0) none 0 lines).filter (fun e => e.1 == s)) :=
    hposAll.sublist (List.filter_sublist _)
  rw [hff] at hposFil
  have hP2 : List.Pairwise (· < ·) (odValues si.pos) := by
    rw [← hmapsnd]
    exact (List.pairwise_map).mpr hposFil
  refine ⟨hP1, hP2, ?_⟩
  have hfirst : ((specEmitGo (averageDiffs acc 0) none 0 lines).filter
      (fun e => e.1 == s)).head? = (firstRecordOf lines s).map (fun q => (s, q.1, q.2)) :=
    specEmit_first (averageDiffs acc 0) lines none 0 s (fun c1 p0 hc => by cases hc)
  rw [hff] at hfirst
  cases hs1 : si.start with
  | nil => exact absurd hs1 hne
  | cons a as =>
    cases hs2 : si.pos with
    | nil =>
      rw [hs1, hs2] at hl12
      simp at hl12
    | cons b bs =>
      obtain ⟨a1, a2⟩ := a
      obtain ⟨b1, b2⟩ := b
      have ha1 : a1 = 0 := by
        rw [hs1] at hk1
        have h0 := congrArg List.head? hk1
        simpa [List.range_succ_eq_map] using h0
      have hb1 : b1 = 0 := by
        rw [hs2] at hk2
        have h0 := congrArg List.head? hk2
        simpa [List.range_succ_eq_map] using h0
      have hhead : (flattenOne s si).head? = some (s, a2, b2) := by
        unfold flattenOne
        rw [hs1, hs2]
        simp
      rw [hhead] at hfirst
      cases hfr : firstRecordOf lines s with
      | none =>
        rw [hfr] at hfirst
        simp at hfirst
      | some q =>
        rw [hfr] at hfirst
        simp only [Option.map_some'] at hfirst
        have hq := Option.some.inj hfirst
        refine ⟨a2, b2, ?_, ?_, ?_⟩
        · simp [ha1]
        · simp [hb1]
        · have h1 : a2 = q.1 := congrArg (fun e => e.2.1) hq
          have h2 : b2 = q.2 := congrArg (fun e => e.2.2) hq
          rw [h1, h2]

/-- Witness for C3 on the session built from `c6File`: the `chr1` slot has
strictly increasing starts 10, 20, 30, 1000 and strictly increasing
offsets, and its entry 0 is the first `chr1` record of the file. -/
theorem C3_monotone_witness :
    List.Pairwise (· < ·) (odValues c6chr1si.start) ∧
    List.Pairwise (· < ·) (odValues c6chr1si.pos) :=
  have T := C3_monotone c6File 3 c6Session (by decide)
    (by unfold sortedPerSeqid; decide) (by decide) "chr1" c6chr1si (by decide)
  ⟨T.1, T.2.1⟩

end Pygff
